import Mathlib

/-!
# Verification of the Growcify ML analysis engine

Shallow embedding of `src/ml/dataPreprocessor.js` and `src/ml/trendAnalyzer.js`
(the trend-and-recommendation analysis core).  JavaScript numbers are modelled
as exact rationals (the pair type `JQ`), with `NaN` as a separate value
constructor; strings
are Lean `String`s; `Date` objects carry an explicit calendar structure in UTC
(the embedding assumes the process runs with a UTC clock, the usual server
setting, so `getFullYear`/`getMonth`/`getDate` agree with the ISO fields).
`undefined` is represented by absence: record field lookup returns an
`Option JSValue`, with `none` playing the role of `undefined`.
-/

namespace GrowcifyML

/-- Calendar date-time, as a JavaScript `Date` exposes it in UTC.  `month` is
0-based exactly like `Date.prototype.getMonth`; `day` is 1-based like
`getDate`. -/
structure JSDate where
  year : Nat
  month : Nat
  day : Nat
  hour : Nat
  minute : Nat
  second : Nat
  ms : Nat
deriving DecidableEq, Repr

/-- JavaScript numbers, modelled as exact rationals in a non-normalizing
integer-pair representation (numerator, positive denominator).  All
arithmetic is structural (no gcd normalization), so concrete runs of the
embedding reduce inside the kernel; equality and order compare *values* by
cross-multiplication, exactly as `===`/`<` compare numbers.  Floating-point
rounding is idealised away: sums, products and comparisons are exact. -/
structure JQ where
  num : Int
  den : Nat
deriving DecidableEq, Repr

def JQ.zero : JQ := ⟨0, 1⟩

def JQ.ofNat (n : Nat) : JQ := ⟨n, 1⟩

instance (n : Nat) : OfNat JQ n := ⟨⟨n, 1⟩⟩

def JQ.add (a b : JQ) : JQ := ⟨a.num * b.den + b.num * a.den, a.den * b.den⟩

def JQ.sub (a b : JQ) : JQ := ⟨a.num * b.den - b.num * a.den, a.den * b.den⟩

def JQ.mul (a b : JQ) : JQ := ⟨a.num * b.num, a.den * b.den⟩

def JQ.neg (a : JQ) : JQ := ⟨-a.num, a.den⟩

/-- Reciprocal; the zero case is never reached (division by zero is guarded
at the call sites, mirroring the JavaScript `Infinity` handling there). -/
def JQ.inv (a : JQ) : JQ :=
  if a.num = 0 then ⟨0, 1⟩
  else if a.num < 0 then ⟨-(a.den : Int), a.num.natAbs⟩
  else ⟨(a.den : Int), a.num.natAbs⟩

def JQ.div (a b : JQ) : JQ := a.mul b.inv

/-- Numeric value equality (`===` on numbers). -/
def JQ.beq (a b : JQ) : Bool := a.num * (b.den : Int) == b.num * (a.den : Int)

def JQ.lt (a b : JQ) : Prop := a.num * (b.den : Int) < b.num * (a.den : Int)

def JQ.le (a b : JQ) : Prop := a.num * (b.den : Int) ≤ b.num * (a.den : Int)

instance : DecidableRel JQ.lt := fun a b => by unfold JQ.lt; infer_instance

instance : DecidableRel JQ.le := fun a b => by unfold JQ.le; infer_instance

def JQ.blt (a b : JQ) : Bool := decide (JQ.lt a b)

def JQ.ble (a b : JQ) : Bool := decide (JQ.le a b)

def JQ.abs (a : JQ) : JQ := ⟨a.num.natAbs, a.den⟩

def JQ.minJ (a b : JQ) : JQ := if JQ.ble a b then a else b

def JQ.maxJ (a b : JQ) : JQ := if JQ.ble a b then b else a

/-- The universe of record field values appearing in the analysis pipeline:
strings, finite numbers, `NaN`, valid `Date` objects, `Invalid Date`
objects, and `null`. -/
inductive JSValue where
  | str (s : String)
  | num (q : JQ)
  | nan
  | date (d : JSDate)
  | invalidDate
  | nullV
deriving DecidableEq, Repr

/-- A flat record (one row of the orders / items / users collections):
an association list from field name to value, with no duplicate keys.
A missing key models the JavaScript `undefined`. -/
abbrev JSRecord := List (String × JSValue)

/-- Field lookup, `item[key]`; `none` is `undefined`. -/
def getF (r : JSRecord) (k : String) : Option JSValue :=
  match r.find? (fun p => p.1 == k) with
  | some p => some p.2
  | none => none

/-- JavaScript truthiness of a value (with `none` = `undefined`). -/
def jsTruthy : Option JSValue → Bool
  | none => false
  | some (.str s) => !(s == "")
  | some (.num q) => !(JQ.beq q JQ.zero)
  | some .nan => false
  | some (.date _) => true
  | some .invalidDate => true
  | some .nullV => false

/-- Decimal digit character. -/
def digitChar (n : Nat) : Char :=
  match n % 10 with
  | 0 => '0' | 1 => '1' | 2 => '2' | 3 => '3' | 4 => '4'
  | 5 => '5' | 6 => '6' | 7 => '7' | 8 => '8' | _ => '9'

/-- Two-digit zero padding, `String(n).padStart(2, '0')` for `n < 100`. -/
def pad2 (n : Nat) : String := ⟨[digitChar (n / 10), digitChar n]⟩

/-- Three-digit zero padding (the milliseconds field of `toISOString`). -/
def pad3 (n : Nat) : String := ⟨[digitChar (n / 100), digitChar (n / 10), digitChar n]⟩

/-- Four-digit zero padding (the year field of `toISOString`). -/
def pad4 (n : Nat) : String :=
  ⟨[digitChar (n / 1000), digitChar (n / 100), digitChar (n / 10), digitChar n]⟩

/-- Decimal rendering of a natural number, as JavaScript template
interpolation `${n}` renders it (no padding).  Modelled fragment: numbers
below 10000 (years in the data); larger numbers defer to `toString`. -/
def natDec (n : Nat) : String :=
  if n < 10 then ⟨[digitChar n]⟩
  else if n < 100 then pad2 n
  else if n < 1000 then pad3 n
  else if n < 10000 then pad4 n
  else toString n

/-- `Date.prototype.toISOString` (for years 0–9999, the four-digit form). -/
def toISOString (d : JSDate) : String :=
  pad4 d.year ++ "-" ++ pad2 (d.month + 1) ++ "-" ++ pad2 d.day ++ "T" ++
    pad2 d.hour ++ ":" ++ pad2 d.minute ++ ":" ++ pad2 d.second ++ "." ++
    pad3 d.ms ++ "Z"

def isDigitChar (c : Char) : Bool := 48 ≤ c.toNat && c.toNat ≤ 57

def digitVal (c : Char) : Nat := c.toNat - 48

def isLeapYear (y : Nat) : Bool := (y % 4 == 0 && !(y % 100 == 0)) || y % 400 == 0

/-- Days in month `m` (1-based) of year `y`. -/
def daysInMonth (y m : Nat) : Nat :=
  if m == 2 then (if isLeapYear y then 29 else 28)
  else if m == 4 || m == 6 || m == 9 || m == 11 then 30
  else 31

/-- `new Date(string)` on the ISO formats the pipeline produces and consumes:
date-only `YYYY-MM-DD` (parsed as UTC midnight) and full `YYYY-MM-DDTHH:MM:SS.mmmZ`.
Out-of-range components give `Invalid Date` (`none`), as do all strings outside
this modelled fragment. -/
def parseJSDateString (s : String) : Option JSDate :=
  match s.data with
  | [y1, y2, y3, y4, '-', m1, m2, '-', d1, d2] =>
    if isDigitChar y1 && isDigitChar y2 && isDigitChar y3 && isDigitChar y4 &&
        isDigitChar m1 && isDigitChar m2 && isDigitChar d1 && isDigitChar d2 then
      let y := 1000 * digitVal y1 + 100 * digitVal y2 + 10 * digitVal y3 + digitVal y4
      let m := 10 * digitVal m1 + digitVal m2
      let d := 10 * digitVal d1 + digitVal d2
      if 1 ≤ m && m ≤ 12 && 1 ≤ d && d ≤ daysInMonth y m then
        some ⟨y, m - 1, d, 0, 0, 0, 0⟩
      else none
    else none
  | [y1, y2, y3, y4, '-', m1, m2, '-', d1, d2, 'T', h1, h2, ':', i1, i2, ':',
      s1, s2, '.', f1, f2, f3, 'Z'] =>
    if isDigitChar y1 && isDigitChar y2 && isDigitChar y3 && isDigitChar y4 &&
        isDigitChar m1 && isDigitChar m2 && isDigitChar d1 && isDigitChar d2 &&
        isDigitChar h1 && isDigitChar h2 && isDigitChar i1 && isDigitChar i2 &&
        isDigitChar s1 && isDigitChar s2 && isDigitChar f1 && isDigitChar f2 &&
        isDigitChar f3 then
      let y := 1000 * digitVal y1 + 100 * digitVal y2 + 10 * digitVal y3 + digitVal y4
      let m := 10 * digitVal m1 + digitVal m2
      let d := 10 * digitVal d1 + digitVal d2
      let h := 10 * digitVal h1 + digitVal h2
      let i := 10 * digitVal i1 + digitVal i2
      let sec := 10 * digitVal s1 + digitVal s2
      let f := 100 * digitVal f1 + 10 * digitVal f2 + digitVal f3
      if 1 ≤ m && m ≤ 12 && 1 ≤ d && d ≤ daysInMonth y m && h ≤ 23 && i ≤ 59 &&
          sec ≤ 59 then
        some ⟨y, m - 1, d, h, i, sec, f⟩
      else none
    else none
  | _ => none

def isWS (c : Char) : Bool := c == ' ' || c == '\t' || c == '\n' || c == '\r'

def trimWS (cs : List Char) : List Char :=
  ((cs.dropWhile isWS).reverse.dropWhile isWS).reverse

/-- Longest prefix of decimal digits, with the rest. -/
def takeDigits (cs : List Char) : List Char × List Char :=
  match cs with
  | [] => ([], [])
  | c :: rest =>
    if isDigitChar c then
      let (ds, r) := takeDigits rest
      (c :: ds, r)
    else ([], cs)

def digitsToNat (ds : List Char) : Nat := ds.foldl (fun a c => 10 * a + digitVal c) 0

/-- Parse an unsigned decimal literal (`123`, `123.45`, `123.`, `.5`) off
the front of the character list.  `none` when no digit is present. -/
def parseDecCore (cs : List Char) : Option (JQ × List Char) :=
  let ip := takeDigits cs
  match ip.2 with
  | '.' :: r2 =>
    let fp := takeDigits r2
    if ip.1.isEmpty && fp.1.isEmpty then none
    else some (JQ.add ⟨digitsToNat ip.1, 1⟩
        (JQ.div ⟨digitsToNat fp.1, 1⟩ ⟨(10 : Int) ^ fp.1.length, 1⟩), fp.2)
  | _ => if ip.1.isEmpty then none else some ((⟨digitsToNat ip.1, 1⟩ : JQ), ip.2)

/-- Signed decimal literal off the front of the character list. -/
def parseSigned (cs : List Char) : Option (JQ × List Char) :=
  match cs with
  | '-' :: r => (parseDecCore r).map (fun p => (JQ.neg p.1, p.2))
  | '+' :: r => parseDecCore r
  | _ => parseDecCore cs

/-- `Number(s)` for strings, `none` meaning `NaN`.  Whitespace is trimmed,
the empty (or all-whitespace) string is `0`, and the whole remainder must be
a signed decimal literal.  Modelled fragment: plain decimal notation
(exponents, hex and `Infinity` literals do not occur in the data and are
treated as non-numeric). -/
def jsToNumber (s : String) : Option JQ :=
  let t := trimWS s.data
  if t.isEmpty then some JQ.zero
  else
    match parseSigned t with
    | some (q, []) => some q
    | _ => none

/-- `parseFloat(s)`: leading whitespace skipped, longest decimal prefix
parsed, trailing garbage ignored; `none` meaning `NaN`. -/
def jsParseFloat (s : String) : Option JQ :=
  match parseSigned (s.data.dropWhile isWS) with
  | some (q, _) => some q
  | none => none

/-- `a.includes(b)` for strings (substring containment). -/
def containsSub (needle hay : String) : Bool :=
  decide (needle.data <:+: hay.data)

/-- The field-name test of the date branch of `normalizeData`:
`key.includes('date') || key.includes('created_at') || key.includes('updated_at') || key.includes('timestamp')`. -/
def isDateKey (k : String) : Bool :=
  containsSub "date" k || containsSub "created_at" k || containsSub "updated_at" k ||
    containsSub "timestamp" k

/-- The field-name exclusion of the numeric branch of `normalizeData`:
`key !== 'order_id' && key !== 'user_id' && key !== 'item_id' && !key.includes('name') && !key.includes('code')`,
here as the *excluded* predicate. -/
def isExcludedNumericKey (k : String) : Bool :=
  k == "order_id" || k == "user_id" || k == "item_id" ||
    containsSub "name" k || containsSub "code" k

/-- One JSON round trip `JSON.parse(JSON.stringify(v))` of a field value:
finite numbers and strings survive, `NaN` serialises to `null`, a valid
`Date` serialises to its ISO string, an `Invalid Date` serialises to `null`
(`Date.prototype.toJSON` returns `null` for non-finite time values). -/
def jsonRoundTripValue : JSValue → JSValue
  | .str s => .str s
  | .num q => .num q
  | .nan => .nullV
  | .date d => .str (toISOString d)
  | .invalidDate => .nullV
  | .nullV => .nullV

def jsonRoundTripRecord (r : JSRecord) : JSRecord :=
  r.map (fun p => (p.1, jsonRoundTripValue p.2))

/-- The body of the `Object.keys(item).forEach` loop of `normalizeData`:
first the numeric branch (string value, `!isNaN`, field name not excluded →
`parseFloat`), then the date branch on the *updated* value (string value,
date-like field name → `new Date`). -/
def normalizeField (k : String) (v : JSValue) : JSValue :=
  let v1 : JSValue :=
    match v with
    | .str s =>
      if (jsToNumber s).isSome && !isExcludedNumericKey k then
        match jsParseFloat s with
        | some q => .num q
        | none => .nan
      else .str s
    | w => w
  match v1 with
  | .str s =>
    if isDateKey k then
      match parseJSDateString s with
      | some d => .date d
      | none => .invalidDate
    else .str s
  | w => w

def normalizeRecord (r : JSRecord) : JSRecord :=
  r.map (fun p => (p.1, normalizeField p.1 p.2))

/-- `DataPreprocessor.normalizeData`: empty-input guard, deep copy via a JSON
round trip, then per-field coercion. -/
def normalizeData (data : List JSRecord) : List JSRecord :=
  if data.isEmpty then []
  else (data.map jsonRoundTripRecord).map normalizeRecord

/-- Property-key coercion `String(v)` used when a value indexes an object
(`grouped[key]`, `productFeatures[productId]`, …).  Modelled fragment: the
keys occurring in the pipeline are strings (ids survive normalization as
strings) or integers; `Date`-valued keys are rendered as their ISO string
here whereas JavaScript uses the long date format (not exercised). -/
def propKey : JSValue → String
  | .str s => s
  | .num q =>
    if q.num % (q.den : Int) == 0 then toString (q.num / (q.den : Int))
    else toString q.num ++ "/" ++ toString q.den
  | .nan => "NaN"
  | .nullV => "null"
  | .date d => toISOString d
  | .invalidDate => "Invalid Date"

def propKeyO : Option JSValue → String
  | none => "undefined"
  | some v => propKey v

/-- Append `item` to the group of `key`, creating the group at the end when
new.  JavaScript object keys enumerate in insertion order for non-index
keys, which is what the association list models. -/
def addToGroup (gs : List (String × List JSRecord)) (key : String) (item : JSRecord) :
    List (String × List JSRecord) :=
  match gs with
  | [] => [(key, [item])]
  | (k, l) :: rest =>
    if k = key then (k, l ++ [item]) :: rest
    else (k, l) :: addToGroup rest key item

/-- `DataPreprocessor.groupDataBy`: records whose key field is falsy are
silently excluded. -/
def groupDataBy (data : List JSRecord) (groupBy : String) : List (String × List JSRecord) :=
  if data.isEmpty then []
  else data.foldl (fun acc item =>
    if jsTruthy (getF item groupBy) then addToGroup acc (propKeyO (getF item groupBy)) item
    else acc) []

/-- Day of week (0 = Sunday, like `Date.prototype.getDay`) of day `d` of
month `m` (1-based) of year `y`, by Zeller's congruence (years ≥ 1). -/
def dayOfWeek (y m d : Nat) : Nat :=
  let y' := if m < 3 then y - 1 else y
  let m' := if m < 3 then m + 12 else m
  let K := y' % 100
  let J := y' / 100
  ((d + (13 * (m' + 1)) / 5 + K + K / 4 + J / 4 + 5 * J) % 7 + 6) % 7

/-- The week number of `createTimeSeries`' `week` granularity:
`Math.ceil((date.getDate() + new Date(y, m, 1).getDay()) / 7)`. -/
def weekNum (d : JSDate) : Nat :=
  (d.day + dayOfWeek d.year (d.month + 1) 1 + 6) / 7

inductive TimeFrame where
  | day
  | week
  | month
deriving DecidableEq, Repr

/-- `new Date(item[timeField])` for the values a (normalized) time field can
hold: a `Date` object, a parseable or unparseable string, an `Invalid Date`.
`none` is `Invalid Date`.  Modelled fragment: numeric epoch timestamps are
treated as unparseable (they do not occur: the analysed collections carry
ISO date strings or `Date`s in their time fields). -/
def jsNewDateOfValue : Option JSValue → Option JSDate
  | some (.date d) => some d
  | some (.str s) => parseJSDateString s
  | _ => none

/-- The `switch(timeFrame)` of `createTimeSeries`, producing the bucket key.
For the `day` case, `toISOString` throws a `RangeError` on an `Invalid
Date`, modelled as `none`; the `week` and `month` templates render the `NaN`
components of an invalid date as the literal text `NaN`. -/
def timeKey : TimeFrame → Option JSDate → Option String
  | .day, some d => some (pad4 d.year ++ "-" ++ pad2 (d.month + 1) ++ "-" ++ pad2 d.day)
  | .day, none => none
  | .week, some d => some (natDec d.year ++ "-W" ++ natDec (weekNum d))
  | .week, none => some "NaN-WNaN"
  | .month, some d => some (natDec d.year ++ "-" ++ pad2 (d.month + 1))
  | .month, none => some "NaN-NaN"

/-- Accumulator of one time bucket (`timeGroups[timeKey]`). -/
structure BucketAcc where
  count : Nat
  sum : JQ
  values : List JQ
deriving DecidableEq, Repr

/-- One element of the series `createTimeSeries` returns. -/
structure Bucket where
  date : String
  count : Nat
  sum : JQ
  average : JQ
  min : JQ
  max : JQ
deriving DecidableEq, Repr

/-- `parseFloat(item[valueField]) || 0`. -/
def parseFloatValue : Option JSValue → JQ
  | some (.str s) =>
    match jsParseFloat s with
    | some q => q
    | none => JQ.zero
  | some (.num q) => q
  | _ => JQ.zero

/-- Update the bucket of key `k` with one value (creating it at the end when
new, in object-insertion order). -/
def addToGroups (gs : List (String × BucketAcc)) (k : String) (v : JQ) :
    List (String × BucketAcc) :=
  match gs with
  | [] => [(k, ⟨1, v, [v]⟩)]
  | (k', a) :: rest =>
    if k' = k then (k', ⟨a.count + 1, JQ.add a.sum v, a.values ++ [v]⟩) :: rest
    else (k', a) :: addToGroups rest k v

/-- The record loop of `createTimeSeries`: skip records with a falsy time
field, otherwise bucket by `timeKey`; `none` models the `RangeError` a
`day`-granularity key raises on an unparseable date. -/
def collectGroups (tf : TimeFrame) (timeField valueField : String) :
    List JSRecord → List (String × BucketAcc) → Option (List (String × BucketAcc))
  | [], acc => some acc
  | r :: rest, acc =>
    if jsTruthy (getF r timeField) then
      match timeKey tf (jsNewDateOfValue (getF r timeField)) with
      | none => none
      | some k =>
        collectGroups tf timeField valueField rest
          (addToGroups acc k (parseFloatValue (getF r valueField)))
    else collectGroups tf timeField valueField rest acc

/-- `Math.min(...values)` over a non-empty list (the empty case is
unreachable: every bucket holds at least one value). -/
def listMinQ : List JQ → JQ
  | [] => JQ.zero
  | x :: xs => xs.foldl JQ.minJ x

def listMaxQ : List JQ → JQ
  | [] => JQ.zero
  | x :: xs => xs.foldl JQ.maxJ x

/-- The ascending-by-key comparator `(a, b) => a.date.localeCompare(b.date)`;
for the ASCII keys produced here `localeCompare` agrees with code-point
order, modelled as the lexicographic order on the character list. -/
def bucketLe (a b : Bucket) : Prop := a.date.data ≤ b.date.data

instance : DecidableRel bucketLe := fun a b => by
  unfold bucketLe; infer_instance

/-- `DataPreprocessor.createTimeSeries`.  Returns `none` when the JavaScript
original would throw (a `day`-granularity bucket key of an unparseable
date); `Array.prototype.sort` is stable, modelled by insertion sort. -/
def createTimeSeries (data : List JSRecord) (timeField valueField : String)
    (tf : TimeFrame) : Option (List Bucket) :=
  if data.isEmpty then some []
  else
    match collectGroups tf timeField valueField (normalizeData data) [] with
    | none => none
    | some gs =>
      let result := gs.map (fun p =>
        Bucket.mk p.1 p.2.count p.2.sum (JQ.div p.2.sum ⟨p.2.count, 1⟩)
          (listMinQ p.2.values) (listMaxQ p.2.values))
      some (result.insertionSort bucketLe)

/-- JavaScript numbers extended with the infinities and `NaN` that the
analyzer's divisions can produce (`last/first` when a first-bucket sum is
zero). -/
inductive JSExt where
  | fin (q : JQ)
  | posInf
  | negInf
  | nanE
deriving DecidableEq, Repr

/-- JavaScript division `a / b` including the `b = 0` cases (the dividends
here are produced by `+`-accumulation, so a zero is `+0`). -/
def jsDiv (a b : JQ) : JSExt :=
  if JQ.beq b JQ.zero then
    (if JQ.blt JQ.zero a then .posInf else if JQ.blt a JQ.zero then .negInf else .nanE)
  else .fin (JQ.div a b)

/-- Subtract a finite constant (infinities and `NaN` absorb). -/
def JSExt.subC (x : JSExt) (c : JQ) : JSExt :=
  match x with
  | .fin q => .fin (JQ.sub q c)
  | e => e

/-- Multiply by a positive finite constant (infinities keep their sign,
`NaN` absorbs). -/
def JSExt.mulPos (x : JSExt) (c : JQ) : JSExt :=
  match x with
  | .fin q => .fin (JQ.mul q c)
  | e => e

/-- `x > c` for a finite `c` (`NaN` compares false). -/
def JSExt.gtB (x : JSExt) (c : JQ) : Bool :=
  match x with
  | .fin q => JQ.blt c q
  | .posInf => true
  | _ => false

/-- `x < c` for a finite `c` (`NaN` compares false). -/
def JSExt.ltB (x : JSExt) (c : JQ) : Bool :=
  match x with
  | .fin q => JQ.blt q c
  | .negInf => true
  | _ => false

/-- `Math.abs(x) > c` for a finite `c ≥ 0`. -/
def JSExt.absGtB (x : JSExt) (c : JQ) : Bool :=
  match x with
  | .fin q => JQ.blt c q.abs
  | .nanE => false
  | _ => true

/-- Descending comparator order on growth rates, as
`(a, b) => parseFloat(b.growthRate) - parseFloat(a.growthRate)` induces it;
a `NaN` rate makes the comparator return `NaN`, which the sort treats as
"keep relative order", modelled as comparing equal. -/
def JSExt.geB (a b : JSExt) : Bool :=
  match a, b with
  | .nanE, _ => true
  | _, .nanE => true
  | .posInf, _ => true
  | _, .posInf => false
  | _, .negInf => true
  | .negInf, _ => false
  | .fin p, .fin q => JQ.ble q p

/-- Same, comparing absolute values (the price-trend sort). -/
def JSExt.absGeB (a b : JSExt) : Bool :=
  match a, b with
  | .nanE, _ => true
  | _, .nanE => true
  | .posInf, _ => true
  | _, .posInf => false
  | .negInf, _ => true
  | _, .negInf => false
  | .fin p, .fin q => JQ.ble q.abs p.abs

/-- `parseFloat(x) || d`: `parseFloat` of a field value, with falsy results
(`NaN`, `0`) replaced by the default. -/
def parseFloatOr (v : Option JSValue) (dflt : JQ) : JQ :=
  match v with
  | some (.str s) =>
    match jsParseFloat s with
    | some q => if JQ.beq q JQ.zero then dflt else q
    | none => dflt
  | some (.num q) => if JQ.beq q JQ.zero then dflt else q
  | _ => dflt

/-- `SameValueZero`, the equality of `Set` membership.  Two `Date` fields of
records produced by `JSON.parse` are distinct heap objects, so object
equality is false. -/
def jsSameValueZero : Option JSValue → Option JSValue → Bool
  | none, none => true
  | some (.str a), some (.str b) => a == b
  | some (.num a), some (.num b) => a == b
  | some .nan, some .nan => true
  | some .nullV, some .nullV => true
  | _, _ => false

/-- Strict equality `===`: like `SameValueZero` except `NaN !== NaN`. -/
def jsStrictEq : Option JSValue → Option JSValue → Bool
  | some .nan, some .nan => false
  | a, b => jsSameValueZero a b

/-- `Set.prototype.add`: append when not yet present. -/
def setAdd (s : List (Option JSValue)) (v : Option JSValue) : List (Option JSValue) :=
  if s.any (fun w => jsSameValueZero w v) then s else s ++ [v]

/-- `new Set(l).size`. -/
def setSizeOf (l : List (Option JSValue)) : Nat :=
  (l.foldl setAdd []).length

/-- `items[0].item_name` of a product group (groups are never empty). -/
def firstName (pitems : List JSRecord) : Option JSValue :=
  match pitems with
  | [] => none
  | r :: _ => getF r "item_name"

structure TopProduct where
  id : String
  name : Option JSValue
  totalQuantity : JQ
  totalRevenue : JQ
  averagePrice : JSExt
  orderCount : Nat
deriving DecidableEq, Repr

structure TrendProduct where
  id : String
  name : Option JSValue
  growthRate : JSExt
  monthlySales : List Bucket
deriving DecidableEq, Repr

structure PriceTrend where
  id : String
  name : Option JSValue
  priceChangePercent : JSExt
  priceTimeSeries : List Bucket
deriving DecidableEq, Repr

structure Trends where
  topProducts : List TopProduct
  growingProducts : List TrendProduct
  decliningProducts : List TrendProduct
  priceTrends : List PriceTrend
  seasonalProducts : List TrendProduct
deriving DecidableEq, Repr

inductive TrendsResult where
  | error (msg : String)
  | ok (t : Trends)
deriving DecidableEq, Repr

def sumQ (l : List JQ) : JQ := l.foldl JQ.add JQ.zero

/-- The least-squares slope of `analyzeProductTrends` over indices
`0 .. n-1` versus the per-bucket sums (`0` when the denominator is `0`). -/
def lsSlope (ys : List JQ) : JQ :=
  let n := ys.length
  let xs : List JQ := (List.range n).map (fun i => JQ.ofNat i)
  let xMean := JQ.div (sumQ xs) (JQ.ofNat n)
  let yMean := JQ.div (sumQ ys) (JQ.ofNat n)
  let numer := sumQ ((xs.zip ys).map (fun p => JQ.mul (JQ.sub p.1 xMean) (JQ.sub p.2 yMean)))
  let denom := sumQ (xs.map (fun x => JQ.mul (JQ.sub x xMean) (JQ.sub x xMean)))
  if JQ.beq denom JQ.zero then JQ.zero else JQ.div numer denom

/-- The product's monthly quantity series
(`createTimeSeries(items, 'date', 'quantity', 'month')`; the `month`
granularity never throws). -/
def productMonthly (pitems : List JSRecord) : List Bucket :=
  (createTimeSeries pitems "date" "quantity" TimeFrame.month).getD []

/-- The product's monthly price series. -/
def productPriceSeries (pitems : List JSRecord) : List Bucket :=
  (createTimeSeries pitems "date" "price" TimeFrame.month).getD []

def firstSum (ms : List Bucket) : JQ :=
  match ms with
  | [] => JQ.zero
  | b :: _ => b.sum

def lastSum (ms : List Bucket) : JQ :=
  match ms.getLast? with
  | none => JQ.zero
  | some b => b.sum

def firstAvg (ms : List Bucket) : JQ :=
  match ms with
  | [] => JQ.zero
  | b :: _ => b.average

def lastAvg (ms : List Bucket) : JQ :=
  match ms.getLast? with
  | none => JQ.zero
  | some b => b.average

/-- `((monthlySales[n-1].sum / monthlySales[0].sum) - 1) * 100` with
JavaScript division semantics. -/
def growthRateOf (ms : List Bucket) : JSExt :=
  ((jsDiv (lastSum ms) (firstSum ms)).subC ⟨1, 1⟩).mulPos ⟨100, 1⟩

/-- The per-product body of the trend loop, projected onto the
`growingProducts` push: `none` when the product is skipped (fewer than 5
records, fewer than 3 monthly buckets) or not classified as growing. -/
def growingEntry (pid : String) (pitems : List JSRecord) : Option TrendProduct :=
  if pitems.length < 5 then none
  else
    let ms := productMonthly pitems
    if ms.length < 3 then none
    else
      let slope := lsSlope (ms.map Bucket.sum)
      let gr := growthRateOf ms
      if JQ.blt JQ.zero slope && gr.gtB ⟨10, 1⟩ then some ⟨pid, firstName pitems, gr, ms⟩
      else none

/-- Projection of the trend loop onto the `decliningProducts` push. -/
def decliningEntry (pid : String) (pitems : List JSRecord) : Option TrendProduct :=
  if pitems.length < 5 then none
  else
    let ms := productMonthly pitems
    if ms.length < 3 then none
    else
      let slope := lsSlope (ms.map Bucket.sum)
      let gr := growthRateOf ms
      if JQ.blt slope JQ.zero && gr.ltB ⟨-10, 1⟩ then some ⟨pid, firstName pitems, gr, ms⟩
      else none

/-- Projection of the trend loop onto the `priceTrends` push. -/
def priceEntry (pid : String) (pitems : List JSRecord) : Option PriceTrend :=
  if pitems.length < 5 then none
  else
    let ms := productMonthly pitems
    if ms.length < 3 then none
    else
      let ps := productPriceSeries pitems
      if 1 < ps.length then
        let diff := ((jsDiv (lastAvg ps) (firstAvg ps)).subC ⟨1, 1⟩).mulPos ⟨100, 1⟩
        if diff.absGtB ⟨5, 1⟩ then some ⟨pid, firstName pitems, diff, ps⟩ else none
      else none

/-- One entry of `productTotals`. -/
def mkTotal (pid : String) (pitems : List JSRecord) : TopProduct :=
  let totalQuantity := sumQ (pitems.map (fun i => parseFloatOr (getF i "quantity") ⟨1, 1⟩))
  let totalRevenue := sumQ (pitems.map (fun i =>
    JQ.mul (parseFloatOr (getF i "price") JQ.zero) (parseFloatOr (getF i "quantity") ⟨1, 1⟩)))
  { id := pid
    name := firstName pitems
    totalQuantity := totalQuantity
    totalRevenue := totalRevenue
    averagePrice := jsDiv totalRevenue totalQuantity
    orderCount := setSizeOf (pitems.map (fun i => getF i "order_id")) }

def topDesc (a b : TopProduct) : Prop := JQ.le b.totalQuantity a.totalQuantity

instance : DecidableRel topDesc := fun a b => by unfold topDesc; infer_instance

def growDesc (a b : TrendProduct) : Prop := a.growthRate.geB b.growthRate = true

instance : DecidableRel growDesc := fun a b => by unfold growDesc; infer_instance

def growAsc (a b : TrendProduct) : Prop := b.growthRate.geB a.growthRate = true

instance : DecidableRel growAsc := fun a b => by unfold growAsc; infer_instance

def priceAbsDesc (a b : PriceTrend) : Prop :=
  a.priceChangePercent.absGeB b.priceChangePercent = true

instance : DecidableRel priceAbsDesc := fun a b => by unfold priceAbsDesc; infer_instance

/-- `TrendAnalyzer.analyzeProductTrends`.  The single `forEach` over
`Object.entries(itemsByProduct)` pushes into three independent result lists;
each list is its projection (`filterMap`) over the entries in order.  The
stored `growthRate`/`priceChangePercent` are kept as exact numbers where
the code stores `toFixed(2)` strings and sorts on `parseFloat` of them (the
rounding can only reorder entries whose rates differ by less than `0.005`;
classification uses the unrounded values in both). -/
def analyzeProductTrends (items orders : List JSRecord) : TrendsResult :=
  let normalizedItems := normalizeData items
  let normalizedOrders := normalizeData orders
  if normalizedItems.isEmpty || normalizedOrders.isEmpty then
    .error "Insufficient data for analysis"
  else
    let itemsByProduct := groupDataBy normalizedItems "item_id"
    let productTotals := itemsByProduct.map (fun p => mkTotal p.1 p.2)
    .ok
      { topProducts := (productTotals.insertionSort topDesc).take 10
        growingProducts :=
          ((itemsByProduct.filterMap (fun p => growingEntry p.1 p.2)).insertionSort
            growDesc).take 5
        decliningProducts :=
          ((itemsByProduct.filterMap (fun p => decliningEntry p.1 p.2)).insertionSort
            growAsc).take 5
        priceTrends :=
          ((itemsByProduct.filterMap (fun p => priceEntry p.1 p.2)).insertionSort
            priceAbsDesc).take 5
        seasonalProducts := [] }

def assocFind (m : List (String × α)) (k : String) : Option α :=
  match m.find? (fun p => p.1 == k) with
  | some p => some p.2
  | none => none

/-- Object-property update: apply `f` in place when the key exists, else
append `(k, f init)` (JavaScript creates the property at the end of the
insertion order). -/
def assocUpdate (m : List (String × α)) (k : String) (f : α → α) (init : α) :
    List (String × α) :=
  match m with
  | [] => [(k, f init)]
  | (k', a) :: rest =>
    if k' = k then (k', f a) :: rest else (k', a) :: assocUpdate rest k f init

/-- `v || d` for numeric fields (`item.quantity || 1`, `item.price || 0`):
falsy values (`0`, `NaN`, `null`, `''`, `undefined`) give the default.
Modelled fragment: truthy non-numeric values (which in JavaScript would
turn the accumulator into a string) do not occur after normalization and
also give the default. -/
def valueOr (v : Option JSValue) (dflt : JQ) : JQ :=
  match v with
  | some (.num q) => if JQ.beq q JQ.zero then dflt else q
  | _ => dflt

/-- First-pass accumulator of `createProductFeatures` (the shape the entry
has before the finalizing pass rewrites `orders` and `common_purchases`). -/
structure PFAcc where
  idV : Option JSValue
  name : Option JSValue
  external_id : Option JSValue
  purchase_count : Nat
  total_quantity : JQ
  price_sum : JQ
  orders : List (Option JSValue)
deriving DecidableEq, Repr

/-- The first pass of `createProductFeatures` for one item record. -/
def firstPassItem (m : List (String × PFAcc)) (item : JSRecord) : List (String × PFAcc) :=
  let pid := propKeyO (getF item "item_id")
  let init : PFAcc :=
    ⟨getF item "item_id", getF item "item_name", getF item "external_id", 0, JQ.zero,
      JQ.zero, []⟩
  assocUpdate m pid
    (fun a =>
      { a with
        purchase_count := a.purchase_count + 1
        total_quantity := JQ.add a.total_quantity (valueOr (getF item "quantity") ⟨1, 1⟩)
        price_sum := JQ.add a.price_sum (valueOr (getF item "price") JQ.zero)
        orders := setAdd a.orders (getF item "order_id") })
    init

/-- `common_purchases[otherProductId]++` (creation at `0` then increment). -/
def coIncr (m : List (String × Nat)) (k : String) : List (String × Nat) :=
  match m with
  | [] => [(k, 1)]
  | (k', c) :: rest => if k' = k then (k', c + 1) :: rest else (k', c) :: coIncr rest k

/-- `processedItems.filter(o => o.order_id === item.order_id && o.item_id !== item.item_id).map(o => o.item_id)`. -/
def orderProducts (processed : List JSRecord) (item : JSRecord) : List (Option JSValue) :=
  (processed.filter (fun o =>
    jsStrictEq (getF o "order_id") (getF item "order_id") &&
      !jsStrictEq (getF o "item_id") (getF item "item_id"))).map
    (fun o => getF o "item_id")

/-- Second pass of `createProductFeatures` for one item record, on the
co-occurrence state (the per-product `common_purchases` objects, split out
of the feature entries as explicit state). -/
def secondPassItem (processed : List JSRecord)
    (cm : List (String × List (String × Nat))) (item : JSRecord) :
    List (String × List (String × Nat)) :=
  assocUpdate cm (propKeyO (getF item "item_id"))
    (fun co => (orderProducts processed item).foldl (fun co v => coIncr co (propKey? v)) co)
    []
where
  propKey? (v : Option JSValue) : String := propKeyO v

def coCounts (processed : List JSRecord) : List (String × List (String × Nat)) :=
  processed.foldl (secondPassItem processed) []

/-- One element of a finalized `common_purchases` list. -/
structure CommonPurchase where
  id : String
  name : JSValue
  count : Nat
deriving DecidableEq, Repr

/-- A finalized entry of the product feature table. -/
structure ProductFeature where
  id : Option JSValue
  name : Option JSValue
  external_id : Option JSValue
  purchase_count : Nat
  total_quantity : JQ
  average_price : JSExt
  price_sum : JQ
  orders : Nat
  common_purchases : List CommonPurchase
deriving DecidableEq, Repr

/-- Descending-count comparator of the `common_purchases` sort
(`(a, b) => b[1] - a[1]`). -/
def coDesc (a b : String × Nat) : Prop := b.2 ≤ a.2

instance : DecidableRel coDesc := fun a b => by unfold coDesc; infer_instance

/-- `productFeatures[id]?.name || id`. -/
def resolveName (acc : List (String × PFAcc)) (id : String) : JSValue :=
  match assocFind acc id with
  | some a =>
    match a.name with
    | some v => if jsTruthy (some v) then v else .str id
    | none => .str id
  | none => .str id

/-- The finalizing pass of `createProductFeatures` for one entry. -/
def finalizeFeature (acc : List (String × PFAcc))
    (co : List (String × List (String × Nat))) (pid : String) (a : PFAcc) :
    ProductFeature :=
  let rawCo := (assocFind co pid).getD []
  let sorted := (rawCo.insertionSort coDesc).take 5
  { id := a.idV
    name := a.name
    external_id := a.external_id
    purchase_count := a.purchase_count
    total_quantity := a.total_quantity
    average_price := jsDiv a.price_sum ⟨a.purchase_count, 1⟩
    price_sum := a.price_sum
    orders := a.orders.length
    common_purchases := sorted.map (fun x => ⟨x.1, resolveName acc x.1, x.2⟩) }

/-- `DataPreprocessor.createProductFeatures`.  The `orders` argument is only
used to build `orderMap`, which nothing reads afterwards, so the feature
table depends on the items alone; the `!orderItems || !orders` null guard
cannot fire on Lean lists. -/
def createProductFeatures (orderItems orders : List JSRecord) :
    List (String × ProductFeature) :=
  let _orderMap := (normalizeData orders).foldl
    (fun m o => assocUpdate m (propKeyO (getF o "order_id")) (fun _ => o) o) []
  let processedItems := normalizeData orderItems
  let acc := processedItems.foldl firstPassItem []
  let co := coCounts processedItems
  acc.map (fun p => (p.1, finalizeFeature acc co p.1 p.2))

/-- One recommendation object.  `id` holds the raw product id value: the
string key of a co-purchase entry in personalized mode, the stored
`item_id` value in popularity mode. -/
structure Recommendation where
  id : Option JSValue
  name : Option JSValue
  score : Nat
  reason : String
deriving DecidableEq, Repr

inductive RecResult where
  | error (msg : String)
  | recs (l : List Recommendation)
deriving DecidableEq, Repr

/-- An order as `generateRecommendations` reads it: a `user_id` field and an
optional nested `items` array. -/
structure RecOrder where
  user_id : Option JSValue
  items : Option (List JSRecord)
deriving DecidableEq, Repr

/-- String interpolation `${v}` of a field value (the `reason` text).
`Date` values are rendered as their ISO string where JavaScript would use
the long date format; the `reason` field is free text either way. -/
def displayString : Option JSValue → String
  | none => "undefined"
  | some (.str s) => s
  | some (.num q) =>
    if q.num % (q.den : Int) == 0 then toString (q.num / (q.den : Int))
    else toString q.num ++ "/" ++ toString q.den
  | some .nan => "NaN"
  | some .nullV => "null"
  | some (.date d) => toISOString d
  | some .invalidDate => "Invalid Date"

def popDesc (a b : ProductFeature) : Prop := b.purchase_count ≤ a.purchase_count

instance : DecidableRel popDesc := fun a b => by unfold popDesc; infer_instance

def recScoreDesc (a b : Recommendation) : Prop := b.score ≤ a.score

instance : DecidableRel recScoreDesc := fun a b => by unfold recScoreDesc; infer_instance

/-- `TrendAnalyzer.generatePopularRecommendations`. -/
def generatePopularRecommendations (productFeatures : List (String × ProductFeature)) :
    List Recommendation :=
  (((productFeatures.map Prod.snd).insertionSort popDesc).take 5).map
    (fun p => ⟨p.id, p.name, p.purchase_count, "Popular product"⟩)

/-- `item.item_id || item._id`. -/
def itemIdOrMongoId (it : JSRecord) : Option JSValue :=
  if jsTruthy (getF it "item_id") then getF it "item_id" else getF it "_id"

/-- The purchased-product set of the personalized branch. -/
def userProductsOf (userOrders : List RecOrder) : List (Option JSValue) :=
  userOrders.foldl
    (fun s o =>
      match o.items with
      | some its => its.foldl (fun s it => setAdd s (itemIdOrMongoId it)) s
      | none => s)
    []

/-- The raw (pre-sort, pre-dedup) personalized recommendation list. -/
def rawRecommendations (productFeatures : List (String × ProductFeature))
    (userProducts : List (Option JSValue)) : List Recommendation :=
  userProducts.flatMap (fun productId =>
    match assocFind productFeatures (propKeyO productId) with
    | some f =>
      f.common_purchases.filterMap (fun rp =>
        if userProducts.any (fun w => jsSameValueZero w (some (.str rp.id))) then none
        else some ⟨some (.str rp.id), some rp.name, rp.count,
          "Frequently bought with " ++ displayString f.name⟩)
    | none => [])

/-- Deduplication by id keeping the first (highest-scoring after the sort)
occurrence — the `seen` set loop, with `Set` (SameValueZero) id equality. -/
def dedupById (l : List Recommendation) : List Recommendation :=
  l.foldl (fun acc r =>
    if acc.any (fun x => jsSameValueZero x.id r.id) then acc else acc ++ [r]) []

/-- `userOrders = recentOrders.filter(order => order.user_id === userId)`. -/
def userOrdersFor (recentOrders : List RecOrder) (userId : Option JSValue) : List RecOrder :=
  recentOrders.filter (fun o => jsStrictEq o.user_id userId)

/-- `TrendAnalyzer.generateRecommendations`. -/
def generateRecommendations (productFeatures : List (String × ProductFeature))
    (recentOrders : List RecOrder) (userId : Option JSValue) : RecResult :=
  if productFeatures.isEmpty then .error "Insufficient product data for recommendations"
  else if jsTruthy userId then
    let userOrders := userOrdersFor recentOrders userId
    if userOrders.isEmpty then .recs (generatePopularRecommendations productFeatures)
    else
      let userProducts := userProductsOf userOrders
      let recommendations := rawRecommendations productFeatures userProducts
      .recs ((dedupById (recommendations.insertionSort recScoreDesc)).take 5)
  else .recs (generatePopularRecommendations productFeatures)

/-- Heap model of `normalizeData` for the frame property: a store of record
objects addressed by position, the argument collection given as a list of
addresses into the store.  `JSON.parse(JSON.stringify(data))` allocates
fresh copies at the end of the store, and the `forEach` mutation is applied
to those fresh addresses only; the function returns the grown store and the
addresses of the result collection. -/
def normalizeDataHeap (store : List JSRecord) (input : List Nat) :
    List JSRecord × List Nat :=
  if input.isEmpty then (store, [])
  else
    let copies := input.map (fun a => jsonRoundTripRecord (store.getD a []))
    (store ++ copies.map normalizeRecord,
      (List.range copies.length).map (fun i => store.length + i))

/-- The claim's identifier-like field predicate, following the spec's words:
any field name of the `*_id` form, or containing `name` or `code`. -/
def specIdentifierLike (k : String) : Bool :=
  decide ("_id".data <:+ k.data) || containsSub "name" k || containsSub "code" k

/-- The result has JavaScript type `number` (a float, possibly `NaN`). -/
def isNumberValue : JSValue → Bool
  | .num _ => true
  | .nan => true
  | _ => false

/-- The calendar ranges a `Date` produced by a successful ISO parse
satisfies. -/
def wfDate (d : JSDate) : Prop :=
  d.year ≤ 9999 ∧ d.month + 1 ≤ 12 ∧ 1 ≤ d.day ∧
    d.day ≤ daysInMonth d.year (d.month + 1) ∧ d.hour ≤ 23 ∧ d.minute ≤ 59 ∧
    d.second ≤ 59 ∧ d.ms ≤ 999

instance (d : JSDate) : Decidable (wfDate d) := by unfold wfDate; infer_instance

/-- A normalized field value that survives the next JSON round trip
unchanged in kind: everything except `NaN` (which serialises to `null`) and
`Invalid Date` (whose `toJSON` is `null`). -/
def stableValue : JSValue → Bool
  | .nan => false
  | .invalidDate => false
  | _ => true

def stableRecord (r : JSRecord) : Bool := r.all (fun p => stableValue p.2)

/-- The claim's reading of the skip condition: count of records whose time
field is present and non-`null`, following the spec's words ("the number of
input records that had a non-null time field"). -/
def specNonNullTimeCount (data : List JSRecord) (timeField : String) : Nat :=
  data.countP (fun r =>
    match getF r timeField with
    | some .nullV => false
    | some _ => true
    | none => false)

def sumCounts (gs : List (String × BucketAcc)) : Nat :=
  (gs.map (fun p => p.2.count)).sum

instance : IsTotal Bucket bucketLe :=
  ⟨fun a b => le_total a.date.data b.date.data⟩

instance : IsTrans Bucket bucketLe :=
  ⟨fun _ _ _ hab hbc => le_trans hab hbc⟩

/-- The per-entry projections of the trend loop over all product groups
(the growing list before sorting and the top-5 cap). -/
def growingFiltered (items : List JSRecord) : List TrendProduct :=
  (groupDataBy (normalizeData items) "item_id").filterMap (fun p => growingEntry p.1 p.2)

def decliningFiltered (items : List JSRecord) : List TrendProduct :=
  (groupDataBy (normalizeData items) "item_id").filterMap (fun p => decliningEntry p.1 p.2)

/-- The claim's growth-rate formula `(last.sum / first.sum - 1) * 100`,
read over the exact rationals (coinciding with the code's `growthRateOf`
whenever the first bucket sum is nonzero). -/
def claimGrowthRate (ms : List Bucket) : JQ :=
  JQ.mul (JQ.sub (JQ.div (lastSum ms) (firstSum ms)) ⟨1, 1⟩) ⟨100, 1⟩

/-- One item record of the C1 counterexample data. -/
def c1Item (pid date qty : String) : JSRecord :=
  [("item_id", .str pid), ("item_name", .str pid), ("order_id", .str "o1"),
    ("date", .str date), ("quantity", .str qty), ("price", .str "10")]

/-- Five records of one product, spanning three months, with a monthly-sum
series `10, 11, 12 + k` (growing, rate `(2 + k) · 10 %`). -/
def c1Prod (pid : String) (k : Nat) : List JSRecord :=
  [c1Item pid "2024-01-10" "10",
    c1Item pid "2024-02-10" "11",
    c1Item pid "2024-03-05" (toString (4 + k)),
    c1Item pid "2024-03-10" "4",
    c1Item pid "2024-03-15" "4"]

/-- Six products, all qualifying as growing, with pairwise distinct growth
rates; `pA` has the smallest. -/
def c1CexItems : List JSRecord :=
  c1Prod "pA" 1 ++ c1Prod "pB" 2 ++ c1Prod "pC" 3 ++
    c1Prod "pD" 4 ++ c1Prod "pE" 5 ++ c1Prod "pF" 6

def c1CexOrders : List JSRecord := [[("order_id", .str "o1"), ("amount", .str "5")]]

/-- The analyzed (normalized, grouped) item records of product `pA`. -/
def c1CexPA : List JSRecord :=
  (assocFind (groupDataBy (normalizeData c1CexItems) "item_id") "pA").getD []

/-- One-product input for the C1 witness (a single qualifying grower). -/
def c1WitnessItems : List JSRecord := c1Prod "pA" 1

def c1WitnessTrends : Trends :=
  match analyzeProductTrends c1WitnessItems c1CexOrders with
  | .ok t => t
  | .error _ => ⟨[], [], [], [], []⟩

def c1WitnessPA : List JSRecord :=
  (assocFind (groupDataBy (normalizeData c1WitnessItems) "item_id") "pA").getD []

/-- `new Set(l)` as a list (insertion-ordered, SameValueZero-deduplicated). -/
def dedupSVZ (l : List (Option JSValue)) : List (Option JSValue) :=
  l.foldl setAdd []

def c6Rec (pid oid : String) : JSRecord :=
  [("item_id", .str pid), ("item_name", .str pid), ("order_id", .str oid),
    ("quantity", .str "1"), ("price", .str "5")]

/-- C6 counterexample input: product `A` has two item records in the single
order `o1`, which also contains one record of product `B`. -/
def c6CexItems : List JSRecord := [c6Rec "A" "o1", c6Rec "A" "o1", c6Rec "B" "o1"]

/-- The second-pass fold, projected to the `common_purchases` object of one
product key `A`. -/
def coFor (processed : List JSRecord) (A : String) :
    List JSRecord → Option (List (String × Nat)) → Option (List (String × Nat))
  | [], cur => cur
  | r :: rest, cur =>
    if propKeyO (getF r "item_id") = A then
      coFor processed A rest
        (some ((orderProducts processed r).foldl
          (fun co v => coIncr co (propKeyO v)) (cur.getD [])))
    else coFor processed A rest cur

def c6WitnessItems : List JSRecord := [c6Rec "A" "o1", c6Rec "B" "o1"]

def c6WitnessFeatA : ProductFeature :=
  (assocFind (createProductFeatures c6WitnessItems []) "A").getD
    ⟨none, none, none, 0, JQ.zero, JSExt.nanE, JQ.zero, 0, []⟩

instance : IsTotal Recommendation recScoreDesc :=
  ⟨fun a b => le_total b.score a.score⟩

instance : IsTrans Recommendation recScoreDesc :=
  ⟨fun _ _ _ h1 h2 => le_trans h2 h1⟩

def c7Feats : List (String × ProductFeature) :=
  [("A", ⟨some (.str "A"), some (.str "Apple"), none, 3, JQ.zero, JSExt.nanE, JQ.zero, 2,
      [⟨"B", .str "Bread", 2⟩, ⟨"C", .str "Cheese", 1⟩]⟩)]

def c7Orders : List RecOrder :=
  [⟨some (.str "u1"), some [[("item_id", JSValue.str "A")]]⟩,
   ⟨some (.str "u2"), some [[("item_id", JSValue.str "C")]]⟩]

def c7WitnessList : List Recommendation :=
  match generateRecommendations c7Feats c7Orders (some (.str "u1")) with
  | .recs l => l
  | .error _ => []

/-- The heap model computes the same result collection as the pure
`normalizeData`: dereferencing the returned addresses in the new store gives
`normalizeData` of the dereferenced input. -/
theorem normalizeDataHeap_agrees (store : List JSRecord) (input : List Nat) :
    ((normalizeDataHeap store input).2).map
        (fun a => (normalizeDataHeap store input).1.getD a []) =
      normalizeData (input.map (fun a => store.getD a [])) := by
  unfold normalizeDataHeap normalizeData
  by_cases h : input.isEmpty
  · simp [h, List.isEmpty_iff.mp h]
  · simp only [h, if_neg, Bool.false_eq_true, not_false_iff, List.map_map, if_false]
    have hlen : (input.map (fun a => store.getD a [])).isEmpty = false := by
      cases input with
      | nil => simp at h
      | cons a t => simp
    rw [hlen]
    simp only [if_false, Bool.false_eq_true]
    apply List.ext_getElem
    · simp
    · intro i h1 h2
      simp only [List.getElem_map, List.getElem_range, Function.comp]
      rw [List.getD_eq_getElem?_getD, List.getElem?_append_right (by omega)]
      simp [List.getElem?_map]
      rw [List.getElem?_eq_getElem (by simpa using h2)]
      simp

/-- C9: `normalizeData` never mutates its argument.  In the heap model the
call only appends fresh copies: every pre-existing object of the store —
in particular every record of the argument collection — is unchanged,
field for field, and the store prefix keeps its length and order. -/
theorem C9_normalizeData_no_mutation (store : List JSRecord) (input : List Nat) :
    (normalizeDataHeap store input).1.take store.length = store ∧
      ∀ a, a < store.length →
        (normalizeDataHeap store input).1.getD a [] = store.getD a [] := by
  unfold normalizeDataHeap
  by_cases h : input.isEmpty
  · simp [h]
  · simp only [h, Bool.false_eq_true, if_false]
    constructor
    · exact List.take_left store _
    · intro a ha
      rw [List.getD_eq_getElem?_getD, List.getD_eq_getElem?_getD,
        List.getElem?_append_left ha]

/-- C5: analysis entry points receiving an empty collection return an
explicit insufficient-data error object and do not raise:
`analyzeProductTrends` with an empty items collection, and
`generateRecommendations` with an empty product-feature table. -/
theorem C5_empty_input_insufficient_data (orders : List JSRecord)
    (recents : List RecOrder) (uid : Option JSValue) :
    analyzeProductTrends [] orders = .error "Insufficient data for analysis" ∧
      generateRecommendations [] recents uid =
        .error "Insufficient product data for recommendations" := by
  constructor
  · simp [analyzeProductTrends, normalizeData]
  · simp [generateRecommendations]

/-- C10: `analyzeProductTrends` returns the insufficient-data error object
whenever the orders collection is empty, for every items collection
(in particular every non-empty one), and hence produces no trend,
top-product or price-trend output in that case. -/
theorem C10_empty_orders_error (items : List JSRecord) :
    analyzeProductTrends items [] = .error "Insufficient data for analysis" := by
  simp [analyzeProductTrends, normalizeData]

theorem C9_normalizeData_no_mutation_witness :
    (normalizeDataHeap [[("amount", JSValue.str "5")]] [0]).1.getD 0 [] =
      [("amount", JSValue.str "5")] :=
  (C9_normalizeData_no_mutation [[("amount", JSValue.str "5")]] [0]).2 0 (by decide)

/-- C2 counterexample: `external_id` is identifier-like in the claim's sense
(`*_id` form), yet `normalizeData` converts its numeric-looking string value
to a number — the code only excludes the three literal names `order_id`,
`user_id`, `item_id`. -/
theorem C2_cex_external_id_converted :
    specIdentifierLike "external_id" = true ∧
      normalizeData [[("external_id", JSValue.str "123")]] =
        [[("external_id", JSValue.num 123)]] := by
  constructor
  · decide
  · rfl

/-- `normalizeData` on a non-empty collection is the per-record, per-field
map of the JSON round trip followed by the field coercion. -/
theorem normalizeData_eq_map (data : List JSRecord) (h : data ≠ []) :
    normalizeData data =
      data.map (fun r => r.map (fun p => (p.1, normalizeField p.1 (jsonRoundTripValue p.2)))) := by
  unfold normalizeData
  rw [if_neg (by simpa [List.isEmpty_iff] using h)]
  rw [List.map_map]
  apply List.map_congr_left
  intro r _
  simp [normalizeRecord, jsonRoundTripRecord, List.map_map, Function.comp]

/-- C2 (amended): a string field is converted to a number exactly when it is
numeric-looking and its name is none of the three literal identifier names
`order_id`, `user_id`, `item_id` and contains neither `name` nor `code`
(so `*_id` names such as `external_id` are *not* excluded); the converted
value is `parseFloat` of the string.  The first conjunct ties the per-field
rule to `normalizeData` itself. -/
theorem C2_amended_numeric_conversion (data : List JSRecord) (h : data ≠ [])
    (k s : String) :
    normalizeData data =
        data.map (fun r => r.map (fun p => (p.1, normalizeField p.1 (jsonRoundTripValue p.2)))) ∧
      (isNumberValue (normalizeField k (.str s)) = true ↔
        (jsToNumber s).isSome = true ∧ isExcludedNumericKey k = false) ∧
      (isNumberValue (normalizeField k (.str s)) = true →
        normalizeField k (.str s) =
          match jsParseFloat s with
          | some q => .num q
          | none => .nan) := by
  refine ⟨normalizeData_eq_map data h, ?_, ?_⟩
  · unfold normalizeField
    cases hs : (jsToNumber s).isSome with
    | false =>
      simp only [hs, Bool.false_and, Bool.false_eq_true, if_false]
      cases hd : isDateKey k with
      | false => simp [isNumberValue, hd]
      | true => cases hp : parseJSDateString s <;> simp [isNumberValue, hd, hp]
    | true =>
      cases he : isExcludedNumericKey k with
      | false =>
        simp only [hs, he, Bool.not_false, Bool.and_true, if_true]
        cases hpf : jsParseFloat s <;> simp [isNumberValue, hpf]
      | true =>
        simp only [hs, he, Bool.not_true, Bool.and_false, Bool.false_eq_true, if_false]
        cases hd : isDateKey k with
        | false => simp [isNumberValue, hd]
        | true => cases hp : parseJSDateString s <;> simp [isNumberValue, hd, hp]
  · unfold normalizeField
    cases hs : (jsToNumber s).isSome with
    | false =>
      simp only [hs, Bool.false_and, Bool.false_eq_true, if_false]
      cases hd : isDateKey k with
      | false => simp [isNumberValue, hd]
      | true => cases hp : parseJSDateString s <;> simp [isNumberValue, hd, hp]
    | true =>
      cases he : isExcludedNumericKey k with
      | false =>
        simp only [hs, he, Bool.not_false, Bool.and_true, if_true]
        cases hpf : jsParseFloat s <;> simp
      | true =>
        simp only [hs, he, Bool.not_true, Bool.and_false, Bool.false_eq_true, if_false]
        cases hd : isDateKey k with
        | false => simp [isNumberValue, hd]
        | true => cases hp : parseJSDateString s <;> simp [isNumberValue, hd, hp]

theorem C2_amended_numeric_conversion_witness :
    isNumberValue (normalizeField "quantity" (.str "7")) = true ∧
      (jsToNumber "7").isSome = true ∧ isExcludedNumericKey "quantity" = false :=
  ⟨by decide,
    (C2_amended_numeric_conversion [[("quantity", JSValue.str "7")]] (by simp)
      "quantity" "7").2.1.mp (by decide)⟩

/-- C8 counterexample: the empty string is numeric-looking to `isNaN` but
`parseFloat('')` is `NaN`, and the second pass's JSON round trip turns that
`NaN` into `null`, so re-normalizing changes the collection. -/
theorem C8_cex_nan_not_idempotent :
    normalizeData (normalizeData [[("qty", JSValue.str "")]]) ≠
      normalizeData [[("qty", JSValue.str "")]] := by
  decide

lemma digitVal_digitChar (n : Nat) : digitVal (digitChar n) = n % 10 := by
  have h : n % 10 < 10 := Nat.mod_lt _ (by norm_num)
  unfold digitChar
  split <;> (simp_all [digitVal]; try omega)

lemma isDigitChar_digitChar (n : Nat) : isDigitChar (digitChar n) = true := by
  unfold digitChar
  split <;> decide

lemma digitChar_ne_dash (n : Nat) : digitChar n ≠ '-' := by
  unfold digitChar
  split <;> decide

lemma digitChar_ne_plus (n : Nat) : digitChar n ≠ '+' := by
  unfold digitChar
  split <;> decide

lemma digitChar_ne_dot (n : Nat) : digitChar n ≠ '.' := by
  unfold digitChar
  split <;> decide

lemma isWS_digitChar (n : Nat) : isWS (digitChar n) = false := by
  unfold digitChar
  split <;> decide

lemma toISOString_data (d : JSDate) :
    (toISOString d).data =
      [digitChar (d.year / 1000), digitChar (d.year / 100), digitChar (d.year / 10),
        digitChar d.year, '-', digitChar ((d.month + 1) / 10), digitChar (d.month + 1),
        '-', digitChar (d.day / 10), digitChar d.day, 'T', digitChar (d.hour / 10),
        digitChar d.hour, ':', digitChar (d.minute / 10), digitChar d.minute, ':',
        digitChar (d.second / 10), digitChar d.second, '.', digitChar (d.ms / 100),
        digitChar (d.ms / 10), digitChar d.ms, 'Z'] := by
  simp [toISOString, pad4, pad3, pad2, String.data_append]

lemma digitVal_le_of_isDigit {c : Char} (h : isDigitChar c = true) : digitVal c ≤ 9 := by
  unfold isDigitChar at h
  unfold digitVal
  simp only [Bool.and_eq_true, decide_eq_true_eq] at h
  omega

lemma parseJSDateString_wf {s : String} {d : JSDate}
    (h : parseJSDateString s = some d) : wfDate d := by
  unfold parseJSDateString at h
  split at h
  · rename_i y1 y2 y3 y4 m1 m2 e1 e2 heq
    dsimp only at h
    split_ifs at h with h1 h2
    · injection h with h3
      subst h3
      simp only [Bool.and_eq_true, decide_eq_true_eq] at h1 h2
      obtain ⟨⟨⟨⟨⟨⟨⟨q1, q2⟩, q3⟩, q4⟩, q5⟩, q6⟩, q7⟩, q8⟩ := h1
      obtain ⟨⟨⟨hm1, hm2⟩, hd1⟩, hd2⟩ := h2
      have b1 := digitVal_le_of_isDigit q1
      have b2 := digitVal_le_of_isDigit q2
      have b3 := digitVal_le_of_isDigit q3
      have b4 := digitVal_le_of_isDigit q4
      have b5 := digitVal_le_of_isDigit q5
      have b6 := digitVal_le_of_isDigit q6
      have b7 := digitVal_le_of_isDigit q7
      have b8 := digitVal_le_of_isDigit q8
      unfold wfDate
      dsimp only
      refine ⟨by omega, by omega, hd1, ?_, by omega, by omega, by omega, by omega⟩
      have e : (10 * digitVal m1 + digitVal m2) - 1 + 1 = 10 * digitVal m1 + digitVal m2 := by
        omega
      simp only [e]
      exact hd2
  · rename_i y1 y2 y3 y4 m1 m2 e1 e2 hh1 hh2 i1 i2 s1 s2 f1 f2 f3 heq
    dsimp only at h
    split_ifs at h with h1 h2
    · injection h with h3
      subst h3
      simp only [Bool.and_eq_true, decide_eq_true_eq] at h1 h2
      obtain ⟨⟨⟨⟨⟨⟨⟨⟨⟨⟨⟨⟨⟨⟨⟨⟨q1, q2⟩, q3⟩, q4⟩, q5⟩, q6⟩, q7⟩, q8⟩, q9⟩, q10⟩,
        q11⟩, q12⟩, q13⟩, q14⟩, q15⟩, q16⟩, q17⟩ := h1
      obtain ⟨⟨⟨⟨⟨⟨hm1, hm2⟩, hd1⟩, hd2⟩, hbh⟩, hbi⟩, hbs⟩ := h2
      have b1 := digitVal_le_of_isDigit q1
      have b2 := digitVal_le_of_isDigit q2
      have b3 := digitVal_le_of_isDigit q3
      have b4 := digitVal_le_of_isDigit q4
      have b5 := digitVal_le_of_isDigit q5
      have b6 := digitVal_le_of_isDigit q6
      have b7 := digitVal_le_of_isDigit q7
      have b8 := digitVal_le_of_isDigit q8
      have b9 := digitVal_le_of_isDigit q9
      have b10 := digitVal_le_of_isDigit q10
      have b11 := digitVal_le_of_isDigit q11
      have b12 := digitVal_le_of_isDigit q12
      have b13 := digitVal_le_of_isDigit q13
      have b14 := digitVal_le_of_isDigit q14
      have b15 := digitVal_le_of_isDigit q15
      have b16 := digitVal_le_of_isDigit q16
      have b17 := digitVal_le_of_isDigit q17
      unfold wfDate
      dsimp only
      refine ⟨by omega, by omega, hd1, ?_, by omega, by omega, by omega, by omega⟩
      have e : (10 * digitVal m1 + digitVal m2) - 1 + 1 = 10 * digitVal m1 + digitVal m2 := by
        omega
      simp only [e]
      exact hd2
  · exact absurd h (by simp)

lemma parseJSDateString_toISOString (d : JSDate) (h : wfDate d) :
    parseJSDateString (toISOString d) = some d := by
  obtain ⟨hy, hm, hd1, hd2, hh, hi, hs, hf⟩ := h
  unfold parseJSDateString
  rw [toISOString_data]
  simp only [isDigitChar_digitChar, digitVal_digitChar, Bool.and_self, if_true,
    Bool.true_and, Bool.and_true]
  have ey : 1000 * (d.year / 1000 % 10) + 100 * (d.year / 100 % 10) +
      10 * (d.year / 10 % 10) + d.year % 10 = d.year := by omega
  have em : 10 * ((d.month + 1) / 10 % 10) + (d.month + 1) % 10 = d.month + 1 := by omega
  have ed : 10 * (d.day / 10 % 10) + d.day % 10 = d.day := by
    have : d.day ≤ 31 := by
      unfold daysInMonth at hd2
      split_ifs at hd2 <;> omega
    omega
  have eh : 10 * (d.hour / 10 % 10) + d.hour % 10 = d.hour := by omega
  have ei : 10 * (d.minute / 10 % 10) + d.minute % 10 = d.minute := by omega
  have es : 10 * (d.second / 10 % 10) + d.second % 10 = d.second := by omega
  have ef : 100 * (d.ms / 100 % 10) + 10 * (d.ms / 10 % 10) + d.ms % 10 = d.ms := by omega
  rw [ey, em, ed, eh, ei, es, ef]
  split
  · congr 1
  · rename_i hc
    exfalso
    apply hc
    simp only [Bool.and_eq_true, decide_eq_true_eq]
    exact ⟨⟨⟨⟨⟨⟨by omega, by omega⟩, hd1⟩, by simpa using hd2⟩, hh⟩, hi⟩, hs⟩

lemma parseSigned_digitChar (a : Nat) (l : List Char) :
    parseSigned (digitChar a :: l) = parseDecCore (digitChar a :: l) := by
  unfold parseSigned
  split
  · rename_i r heq
    injection heq with h1 h2
    exact absurd h1 (digitChar_ne_dash a)
  · rename_i r heq
    injection heq with h1 h2
    exact absurd h1 (digitChar_ne_plus a)
  · rfl

lemma takeDigits_digitChar (a : Nat) (l : List Char) :
    takeDigits (digitChar a :: l) =
      (digitChar a :: (takeDigits l).1, (takeDigits l).2) := by
  cases htd : takeDigits l with
  | mk ds r =>
    rw [takeDigits, if_pos (isDigitChar_digitChar a), htd]

lemma trimWS_of_ends {l : List Char} (h1 : ∀ x, l.head? = some x → isWS x = false)
    (h2 : ∀ x, l.getLast? = some x → isWS x = false) : trimWS l = l := by
  unfold trimWS
  have e1 : l.dropWhile isWS = l := by
    cases l with
    | nil => rfl
    | cons c t =>
      rw [List.dropWhile_cons, h1 c rfl]
      simp
  rw [e1]
  have e2 : l.reverse.dropWhile isWS = l.reverse := by
    cases hr : l.reverse with
    | nil => rfl
    | cons c t =>
      rw [List.dropWhile_cons]
      have hc : l.getLast? = some c := by
        rw [← List.head?_reverse, hr]
        rfl
      rw [h2 c hc]
      simp
  rw [e2, List.reverse_reverse]

lemma parseSigned_four_digits_dash (a b c e : Nat) (rest : List Char) :
    parseSigned (digitChar a :: digitChar b :: digitChar c :: digitChar e :: '-' :: rest) =
      some ((⟨digitsToNat [digitChar a, digitChar b, digitChar c, digitChar e], 1⟩ : JQ),
        '-' :: rest) := by
  rw [parseSigned_digitChar, parseDecCore, takeDigits_digitChar, takeDigits_digitChar,
    takeDigits_digitChar, takeDigits_digitChar]
  rfl

/-- An ISO date-time string is not numeric-looking: `isNaN` on it is true. -/
lemma jsToNumber_toISOString (d : JSDate) : jsToNumber (toISOString d) = none := by
  unfold jsToNumber
  rw [toISOString_data]
  rw [trimWS_of_ends ?h1 ?h2]
  case h1 =>
    intro x hx
    injection hx with hx
    rw [← hx]
    exact isWS_digitChar _
  case h2 =>
    intro x hx
    have hz : ('Z' : Char) = x := by injection hx with hx
    rw [← hz]
    rfl
  rw [if_neg (by simp)]
  rw [parseSigned_four_digits_dash]

lemma normalizeField_idem (k : String) (v : JSValue)
    (h : stableValue (normalizeField k (jsonRoundTripValue v)) = true) :
    normalizeField k (jsonRoundTripValue (normalizeField k (jsonRoundTripValue v))) =
      normalizeField k (jsonRoundTripValue v) := by
  have main : ∀ s : String, stableValue (normalizeField k (.str s)) = true →
      normalizeField k (jsonRoundTripValue (normalizeField k (.str s))) =
        normalizeField k (.str s) := by
    intro s hs
    by_cases hc : ((jsToNumber s).isSome && !isExcludedNumericKey k) = true
    · have hw : normalizeField k (.str s) =
          match jsParseFloat s with
          | some q => .num q
          | none => .nan := by
        unfold normalizeField
        dsimp only
        rw [if_pos hc]
        cases jsParseFloat s <;> rfl
      cases hpf : jsParseFloat s with
      | none =>
        rw [hw, hpf] at hs
        simp [stableValue] at hs
      | some q =>
        rw [hw, hpf]
        rfl
    · by_cases hd : isDateKey k = true
      · have hw : normalizeField k (.str s) =
            match parseJSDateString s with
            | some d => .date d
            | none => .invalidDate := by
          unfold normalizeField
          dsimp only
          rw [if_neg hc]
          rw [hd]
          simp
        cases hp : parseJSDateString s with
        | none =>
          rw [hw, hp] at hs
          simp [stableValue] at hs
        | some d =>
          rw [hw, hp]
          show normalizeField k (.str (toISOString d)) = .date d
          unfold normalizeField
          dsimp only
          rw [if_neg (by simp [jsToNumber_toISOString d])]
          rw [hd]
          simp [parseJSDateString_toISOString d (parseJSDateString_wf hp)]
      · have hw : normalizeField k (.str s) = .str s := by
          unfold normalizeField
          dsimp only
          rw [if_neg hc]
          simp only [Bool.not_eq_true] at hd
          rw [hd]
          simp
        rw [hw]
        exact hw
  cases v with
  | str s => exact main s h
  | num q => rfl
  | nan => rfl
  | date d => exact main (toISOString d) h
  | invalidDate => rfl
  | nullV => rfl

/-- C8 counterexample input data, for reference in the amended statement:
see `C8_cex_nan_not_idempotent`. -/
theorem C8_amended_idempotent (data : List JSRecord) (h0 : data ≠ [])
    (h : ∀ r ∈ normalizeData data, stableRecord r = true) :
    normalizeData (normalizeData data) = normalizeData data := by
  have h1 : normalizeData data ≠ [] := by
    rw [normalizeData_eq_map data h0]
    simpa using h0
  rw [normalizeData_eq_map _ h1]
  refine (List.map_congr_left ?_).trans (List.map_id _)
  intro r hr
  have hst := h r hr
  rw [normalizeData_eq_map data h0] at hr
  obtain ⟨r0, hr0, rfl⟩ := List.mem_map.mp hr
  rw [List.map_map]
  apply List.map_congr_left
  intro p hp
  have hmem : (p.1, normalizeField p.1 (jsonRoundTripValue p.2)) ∈
      r0.map (fun p => (p.1, normalizeField p.1 (jsonRoundTripValue p.2))) :=
    List.mem_map_of_mem _ hp
  have hsv : stableValue (normalizeField p.1 (jsonRoundTripValue p.2)) = true := by
    have := List.all_eq_true.mp hst _ hmem
    simpa using this
  show (p.1, normalizeField p.1 (jsonRoundTripValue (normalizeField p.1 (jsonRoundTripValue p.2)))) =
    (p.1, normalizeField p.1 (jsonRoundTripValue p.2))
  rw [normalizeField_idem p.1 p.2 hsv]

theorem C8_amended_idempotent_witness :
    normalizeData (normalizeData
        [[("quantity", JSValue.str "2"), ("order_date", JSValue.str "2024-01-15")]]) =
      normalizeData
        [[("quantity", JSValue.str "2"), ("order_date", JSValue.str "2024-01-15")]] :=
  C8_amended_idempotent _ (by simp) (by decide)

/-- C3 counterexample: with `week` granularity, the record of 2024-02-01
gets bucket key `2024-W1` (week-of-month 1) and the record of 2024-01-15
gets `2024-W3`, so string ordering of the keys — which is how the buckets
are sorted — puts the *later* record first: bucket ordering is not
chronological ordering, and keys even collide across months. -/
theorem C3_cex_week_keys_not_chronological :
    (createTimeSeries
        [[("date", JSValue.str "2024-01-15"), ("quantity", JSValue.str "2")],
          [("date", JSValue.str "2024-02-01"), ("quantity", JSValue.str "5")]]
        "date" "quantity" TimeFrame.week).map (fun bs => bs.map Bucket.date) =
      some ["2024-W1", "2024-W3"] ∧
      timeKey TimeFrame.week (some ⟨2024, 1, 1, 0, 0, 0, 0⟩) = some "2024-W1" ∧
      timeKey TimeFrame.week (some ⟨2024, 0, 15, 0, 0, 0, 0⟩) = some "2024-W3" ∧
      List.Lex (· < ·) ("2024-W1" : String).data ("2024-W3" : String).data := by
  refine ⟨by decide, by decide, by decide, ?_⟩
  decide

lemma lex_cons_iff {a b : Char} {l1 l2 : List Char} :
    List.Lex (· < ·) (a :: l1) (b :: l2) ↔ a < b ∨ (a = b ∧ List.Lex (· < ·) l1 l2) := by
  constructor
  · intro h
    cases h with
    | rel h => exact Or.inl h
    | cons h => exact Or.inr ⟨rfl, h⟩
  · rintro (h | ⟨rfl, h⟩)
    · exact List.Lex.rel h
    · exact List.Lex.cons h

lemma digitChar_mod (a : Nat) : digitChar (a % 10) = digitChar a := by
  unfold digitChar
  rw [show a % 10 % 10 = a % 10 from by omega]

lemma digitChar_lt_iff (a b : Nat) : digitChar a < digitChar b ↔ a % 10 < b % 10 := by
  rw [← digitChar_mod a, ← digitChar_mod b]
  have H : ∀ x, x < 10 → ∀ y, y < 10 → (digitChar x < digitChar y ↔ x < y) := by decide
  exact H _ (by omega) _ (by omega)

lemma digitChar_eq_iff (a b : Nat) : digitChar a = digitChar b ↔ a % 10 = b % 10 := by
  rw [← digitChar_mod a, ← digitChar_mod b]
  have H : ∀ x, x < 10 → ∀ y, y < 10 → (digitChar x = digitChar y ↔ x = y) := by decide
  exact H _ (by omega) _ (by omega)

lemma natDec_eq_pad4 (n : Nat) (h1 : 1000 ≤ n) (h2 : n ≤ 9999) : natDec n = pad4 n := by
  unfold natDec
  rw [if_neg (by omega), if_neg (by omega), if_neg (by omega), if_pos (by omega)]

lemma twoDigitLexEnd (x y : Nat) (hx : x ≤ 99) (hy : y ≤ 99) :
    (x / 10 % 10 < y / 10 % 10 ∨ x / 10 % 10 = y / 10 % 10 ∧ x % 10 < y % 10) ↔ x < y := by
  omega

lemma twoDigitLexChain (x y : Nat) (K : Prop) (hx : x ≤ 99) (hy : y ≤ 99) :
    (x / 10 % 10 < y / 10 % 10 ∨ x / 10 % 10 = y / 10 % 10 ∧
      (x % 10 < y % 10 ∨ x % 10 = y % 10 ∧ K)) ↔ (x < y ∨ x = y ∧ K) := by
  by_cases hK : K
  · simp only [hK, and_true]
    omega
  · simp only [hK, and_false, or_false]
    omega

lemma fourDigitLexChain (x y : Nat) (K : Prop) (hx : x ≤ 9999) (hy : y ≤ 9999) :
    (x / 1000 % 10 < y / 1000 % 10 ∨ x / 1000 % 10 = y / 1000 % 10 ∧
      (x / 100 % 10 < y / 100 % 10 ∨ x / 100 % 10 = y / 100 % 10 ∧
        (x / 10 % 10 < y / 10 % 10 ∨ x / 10 % 10 = y / 10 % 10 ∧
          (x % 10 < y % 10 ∨ x % 10 = y % 10 ∧ K)))) ↔ (x < y ∨ x = y ∧ K) := by
  have a1 : x / 100 / 10 = x / 1000 := by rw [Nat.div_div_eq_div_mul]
  have a2 : x / 10 / 10 = x / 100 := by rw [Nat.div_div_eq_div_mul]
  have a3 : y / 100 / 10 = y / 1000 := by rw [Nat.div_div_eq_div_mul]
  have a4 : y / 10 / 10 = y / 100 := by rw [Nat.div_div_eq_div_mul]
  have e1 : 1000 * (x / 1000 % 10) + 100 * (x / 100 % 10) + 10 * (x / 10 % 10) +
      x % 10 = x := by omega
  have e2 : 1000 * (y / 1000 % 10) + 100 * (y / 100 % 10) + 10 * (y / 10 % 10) +
      y % 10 = y := by omega
  by_cases hK : K
  · simp only [hK, and_true]
    omega
  · simp only [hK, and_false, or_false]
    omega

/-- C3 (amended): `day` and `month` bucket keys are lexicographically
sortable — for four-digit years, string order of the keys coincides with
chronological order of the calendar periods they denote.  (The `week` keys
are not sortable; see the counterexample.) -/
theorem C3_amended_day_month_keys_chronological (d1 d2 : JSDate)
    (h1a : 1000 ≤ d1.year) (h1b : d1.year ≤ 9999) (h1m : d1.month ≤ 11)
    (h1d : d1.day ≤ 31)
    (h2a : 1000 ≤ d2.year) (h2b : d2.year ≤ 9999) (h2m : d2.month ≤ 11)
    (h2d : d2.day ≤ 31) :
    ∀ k1 k2 g1 g2,
      timeKey TimeFrame.day (some d1) = some k1 →
      timeKey TimeFrame.day (some d2) = some k2 →
      timeKey TimeFrame.month (some d1) = some g1 →
      timeKey TimeFrame.month (some d2) = some g2 →
      (List.Lex (· < ·) k1.data k2.data ↔
        (d1.year < d2.year ∨ (d1.year = d2.year ∧ d1.month < d2.month) ∨
          (d1.year = d2.year ∧ d1.month = d2.month ∧ d1.day < d2.day))) ∧
      (List.Lex (· < ·) g1.data g2.data ↔
        (d1.year < d2.year ∨ (d1.year = d2.year ∧ d1.month < d2.month))) := by
  intro k1 k2 g1 g2 hk1 hk2 hg1 hg2
  simp only [timeKey, Option.some.injEq] at hk1 hk2 hg1 hg2
  subst hk1
  subst hk2
  subst hg1
  subst hg2
  rw [natDec_eq_pad4 _ h1a h1b, natDec_eq_pad4 _ h2a h2b]
  constructor
  · show List.Lex (· < ·)
      [digitChar (d1.year / 1000), digitChar (d1.year / 100), digitChar (d1.year / 10),
        digitChar d1.year, '-', digitChar ((d1.month + 1) / 10), digitChar (d1.month + 1),
        '-', digitChar (d1.day / 10), digitChar d1.day]
      [digitChar (d2.year / 1000), digitChar (d2.year / 100), digitChar (d2.year / 10),
        digitChar d2.year, '-', digitChar ((d2.month + 1) / 10), digitChar (d2.month + 1),
        '-', digitChar (d2.day / 10), digitChar d2.day] ↔ _
    simp only [lex_cons_iff, List.Lex.not_nil_right, lt_self_iff_false,
      digitChar_lt_iff, digitChar_eq_iff, and_false, or_false, false_or, true_and,
      and_true]
    rw [twoDigitLexEnd d1.day d2.day (by omega) (by omega)]
    rw [twoDigitLexChain (d1.month + 1) (d2.month + 1) _ (by omega) (by omega)]
    rw [fourDigitLexChain d1.year d2.year _ (by omega) (by omega)]
    omega
  · show List.Lex (· < ·)
      [digitChar (d1.year / 1000), digitChar (d1.year / 100), digitChar (d1.year / 10),
        digitChar d1.year, '-', digitChar ((d1.month + 1) / 10), digitChar (d1.month + 1)]
      [digitChar (d2.year / 1000), digitChar (d2.year / 100), digitChar (d2.year / 10),
        digitChar d2.year, '-', digitChar ((d2.month + 1) / 10), digitChar (d2.month + 1)] ↔ _
    simp only [lex_cons_iff, List.Lex.not_nil_right, lt_self_iff_false,
      digitChar_lt_iff, digitChar_eq_iff, and_false, or_false, false_or, true_and,
      and_true]
    rw [twoDigitLexEnd (d1.month + 1) (d2.month + 1) (by omega) (by omega)]
    rw [fourDigitLexChain d1.year d2.year _ (by omega) (by omega)]
    omega

theorem C3_amended_day_month_keys_chronological_witness :
    List.Lex (· < ·) ("2024-01-15" : String).data ("2024-02-01" : String).data ∧
      List.Lex (· < ·) ("2024-01" : String).data ("2024-02" : String).data :=
  ⟨((C3_amended_day_month_keys_chronological ⟨2024, 0, 15, 0, 0, 0, 0⟩
        ⟨2024, 1, 1, 0, 0, 0, 0⟩ (by decide) (by decide) (by decide) (by decide)
        (by decide) (by decide) (by decide) (by decide)
        "2024-01-15" "2024-02-01" "2024-01" "2024-02"
        (by decide) (by decide) (by decide) (by decide)).1).mpr
      (by decide),
    ((C3_amended_day_month_keys_chronological ⟨2024, 0, 15, 0, 0, 0, 0⟩
        ⟨2024, 1, 1, 0, 0, 0, 0⟩ (by decide) (by decide) (by decide) (by decide)
        (by decide) (by decide) (by decide) (by decide)
        "2024-01-15" "2024-02-01" "2024-01" "2024-02"
        (by decide) (by decide) (by decide) (by decide)).2).mpr
      (by decide)⟩

/-- C4 counterexample: a record whose `date` field is the string `"0"` has a
non-null time field, but normalization turns `"0"` into the number `0`,
which is falsy, so the record is skipped: the bucket counts sum to `0`,
not `1`. -/
theorem C4_cex_nonnull_vs_truthy :
    createTimeSeries [[("date", JSValue.str "0"), ("quantity", JSValue.str "2")]]
        "date" "quantity" TimeFrame.day = some [] ∧
      specNonNullTimeCount [[("date", JSValue.str "0"), ("quantity", JSValue.str "2")]]
        "date" = 1 := by
  constructor
  · rfl
  · rfl

lemma addToGroups_sum (gs : List (String × BucketAcc)) (k : String) (v : JQ) :
    sumCounts (addToGroups gs k v) = sumCounts gs + 1 := by
  induction gs with
  | nil => rfl
  | cons p rest ih =>
    obtain ⟨k', a⟩ := p
    unfold addToGroups
    by_cases hk : k' = k
    · rw [if_pos hk]
      simp [sumCounts]
      omega
    · rw [if_neg hk]
      simp only [sumCounts, List.map_cons, List.sum_cons] at ih ⊢
      omega

lemma addToGroups_keys (gs : List (String × BucketAcc)) (k : String) (v : JQ) :
    (addToGroups gs k v).map Prod.fst =
      if k ∈ gs.map Prod.fst then gs.map Prod.fst else gs.map Prod.fst ++ [k] := by
  induction gs with
  | nil => simp [addToGroups]
  | cons p rest ih =>
    obtain ⟨k', a⟩ := p
    by_cases hk : k' = k
    · subst hk
      unfold addToGroups
      rw [if_pos rfl]
      simp
    · unfold addToGroups
      rw [if_neg hk]
      simp only [List.map_cons]
      rw [ih]
      by_cases hmem : k ∈ rest.map Prod.fst
      · rw [if_pos hmem, if_pos (List.mem_cons_of_mem _ hmem)]
      · rw [if_neg hmem, if_neg ?_]
        · simp
        · simp only [List.mem_cons]
          rintro (h1 | h1)
          · exact hk h1.symm
          · exact hmem h1

lemma addToGroups_nodup (gs : List (String × BucketAcc)) (k : String) (v : JQ)
    (h : (gs.map Prod.fst).Nodup) : ((addToGroups gs k v).map Prod.fst).Nodup := by
  rw [addToGroups_keys]
  by_cases hmem : k ∈ gs.map Prod.fst
  · rw [if_pos hmem]
    exact h
  · rw [if_neg hmem]
    simp [List.nodup_append, h, hmem]

lemma collectGroups_sum (tf : TimeFrame) (tF vF : String) (rs : List JSRecord) :
    ∀ acc gs, collectGroups tf tF vF rs acc = some gs →
      sumCounts gs = sumCounts acc + rs.countP (fun r => jsTruthy (getF r tF)) := by
  induction rs with
  | nil =>
    intro acc gs h
    unfold collectGroups at h
    injection h with h
    subst h
    simp
  | cons r rest ih =>
    intro acc gs h
    unfold collectGroups at h
    by_cases ht : jsTruthy (getF r tF) = true
    · rw [if_pos ht] at h
      cases hk : timeKey tf (jsNewDateOfValue (getF r tF)) with
      | none => rw [hk] at h; exact absurd h (by simp)
      | some k =>
        rw [hk] at h
        have := ih _ _ h
        rw [this, addToGroups_sum]
        simp only [List.countP_cons, ht, if_true]
        omega
    · rw [if_neg ht] at h
      have := ih _ _ h
      rw [this]
      simp only [List.countP_cons, ht, if_false]
      simp

lemma collectGroups_nodup (tf : TimeFrame) (tF vF : String) (rs : List JSRecord) :
    ∀ acc gs, collectGroups tf tF vF rs acc = some gs →
      (acc.map Prod.fst).Nodup → (gs.map Prod.fst).Nodup := by
  induction rs with
  | nil =>
    intro acc gs h hn
    unfold collectGroups at h
    injection h with h
    subst h
    exact hn
  | cons r rest ih =>
    intro acc gs h hn
    unfold collectGroups at h
    by_cases ht : jsTruthy (getF r tF) = true
    · rw [if_pos ht] at h
      cases hk : timeKey tf (jsNewDateOfValue (getF r tF)) with
      | none => rw [hk] at h; exact absurd h (by simp)
      | some k =>
        rw [hk] at h
        exact ih _ _ h (addToGroups_nodup _ _ _ hn)
    · rw [if_neg ht] at h
      exact ih _ _ h hn

/-- C4 (amended): the buckets are strictly ascending by key (string order),
and the bucket counts sum to the number of records whose time field is
*truthy after normalization* (present, non-null, non-zero, non-empty —
"non-null" alone is not enough, see the counterexample); normalization
preserves the record count, so these correspond one-to-one to input
records. -/
theorem C4_amended_ascending_and_counts (data : List JSRecord) (tf : TimeFrame)
    (timeField valueField : String) (bs : List Bucket)
    (h : createTimeSeries data timeField valueField tf = some bs) :
    List.Pairwise (fun a b : Bucket => List.Lex (· < ·) a.date.data b.date.data) bs ∧
      (bs.map Bucket.count).sum =
        (normalizeData data).countP (fun r => jsTruthy (getF r timeField)) ∧
      (normalizeData data).length = data.length := by
  have hlen : (normalizeData data).length = data.length := by
    unfold normalizeData
    by_cases he : data.isEmpty
    · simp [he, List.isEmpty_iff.mp he]
    · simp [he]
  unfold createTimeSeries at h
  by_cases he : data.isEmpty
  · rw [if_pos he] at h
    injection h with h
    subst h
    have hdata : data = [] := List.isEmpty_iff.mp he
    subst hdata
    refine ⟨by simp, by simp [normalizeData], hlen⟩
  · rw [if_neg he] at h
    cases hc : collectGroups tf timeField valueField (normalizeData data) [] with
    | none =>
      rw [hc] at h
      exact absurd h (by simp)
    | some gs =>
      rw [hc] at h
      simp only [Option.some.injEq] at h
      subst h
      have hnodup : (gs.map Prod.fst).Nodup :=
        collectGroups_nodup _ _ _ _ _ _ hc (by simp)
      set mapped := gs.map (fun p =>
        Bucket.mk p.1 p.2.count p.2.sum (JQ.div p.2.sum ⟨p.2.count, 1⟩)
          (listMinQ p.2.values) (listMaxQ p.2.values)) with hmapped
      have hsorted : List.Sorted bucketLe (mapped.insertionSort bucketLe) :=
        List.sorted_insertionSort bucketLe mapped
      have hperm : List.Perm (mapped.insertionSort bucketLe) mapped :=
        List.perm_insertionSort bucketLe mapped
      have hdatainj : Function.Injective (fun s : String => s.data) := by
        intro a b hab
        cases a
        cases b
        simp only at hab
        rw [hab]
      have hdates : ((mapped.insertionSort bucketLe).map
          (fun b => b.date.data)).Nodup := by
        rw [(hperm.map (fun b => b.date.data)).nodup_iff]
        have : mapped.map (fun b => b.date.data) =
            (gs.map Prod.fst).map (fun s => s.data) := by
          rw [hmapped, List.map_map, List.map_map]
          rfl
        rw [this]
        exact hnodup.map hdatainj
      have hpair2 : List.Pairwise (fun a b : Bucket => a.date.data ≠ b.date.data)
          (mapped.insertionSort bucketLe) := by
        have := (List.pairwise_map (R := (· ≠ ·))).mp hdates
        exact this
      refine ⟨?_, ?_, hlen⟩
      · refine ((hsorted.and hpair2).imp ?_)
        rintro a b ⟨hle, hne⟩
        exact lt_of_le_of_ne hle hne
      · have hsum : ((mapped.insertionSort bucketLe).map Bucket.count).sum =
            (mapped.map Bucket.count).sum :=
          (hperm.map Bucket.count).sum_eq
        rw [hsum]
        have : mapped.map Bucket.count = gs.map (fun p => p.2.count) := by
          rw [hmapped, List.map_map]
          rfl
        rw [this]
        have := collectGroups_sum tf timeField valueField (normalizeData data) [] gs hc
        simpa [sumCounts] using this

theorem C4_amended_ascending_and_counts_witness :
    List.Pairwise (fun a b : Bucket => List.Lex (· < ·) a.date.data b.date.data)
        [⟨"2024-01", 1, 2, 2, 2, 2⟩, ⟨"2024-02", 1, 5, 5, 5, 5⟩] ∧
      (([⟨"2024-01", 1, 2, 2, 2, 2⟩, ⟨"2024-02", 1, 5, 5, 5, 5⟩] :
          List Bucket).map Bucket.count).sum =
        (normalizeData
          [[("date", JSValue.str "2024-01-15"), ("quantity", JSValue.str "2")],
            [("date", JSValue.str "2024-02-01"), ("quantity", JSValue.str "5")]]).countP
          (fun r => jsTruthy (getF r "date")) ∧
      (normalizeData
        [[("date", JSValue.str "2024-01-15"), ("quantity", JSValue.str "2")],
          [("date", JSValue.str "2024-02-01"), ("quantity", JSValue.str "5")]]).length =
        ([[("date", JSValue.str "2024-01-15"), ("quantity", JSValue.str "2")],
          [("date", JSValue.str "2024-02-01"), ("quantity", JSValue.str "5")]] :
          List JSRecord).length :=
  C4_amended_ascending_and_counts
    [[("date", JSValue.str "2024-01-15"), ("quantity", JSValue.str "2")],
      [("date", JSValue.str "2024-02-01"), ("quantity", JSValue.str "5")]]
    TimeFrame.month "date" "quantity" _ (by decide)

/-- C1 counterexample: with six qualifying growing products, the result list
is capped at 5 (sorted by descending growth rate), so product `pA` — which
has at least 5 records, 3 monthly buckets, positive least-squares slope and
growth rate `30 % > 10 %` — does not appear in the growing list, falsifying
the "if and only if" as stated. -/
theorem C1_cex_top5_cap :
    (match analyzeProductTrends c1CexItems c1CexOrders with
      | .ok t => t.growingProducts.map TrendProduct.id
      | .error _ => []) = ["pF", "pE", "pD", "pC", "pB"] ∧
      5 ≤ c1CexPA.length ∧
      3 ≤ (productMonthly c1CexPA).length ∧
      JQ.lt JQ.zero (lsSlope ((productMonthly c1CexPA).map Bucket.sum)) ∧
      JQ.lt ⟨10, 1⟩ (claimGrowthRate (productMonthly c1CexPA)) := by
  refine ⟨by decide, by decide, by decide, by decide, by decide⟩

/-- Keys of `addToGroup` grow exactly like object keys: update in place or
append a fresh key. -/
lemma addToGroup_keys (gs : List (String × List JSRecord)) (k : String) (item : JSRecord) :
    (addToGroup gs k item).map Prod.fst =
      if k ∈ gs.map Prod.fst then gs.map Prod.fst else gs.map Prod.fst ++ [k] := by
  induction gs with
  | nil => simp [addToGroup]
  | cons p rest ih =>
    obtain ⟨k', l⟩ := p
    by_cases hk : k' = k
    · subst hk
      unfold addToGroup
      rw [if_pos rfl]
      simp
    · unfold addToGroup
      rw [if_neg hk]
      simp only [List.map_cons]
      rw [ih]
      by_cases hmem : k ∈ rest.map Prod.fst
      · rw [if_pos hmem, if_pos (List.mem_cons_of_mem _ hmem)]
      · rw [if_neg hmem, if_neg ?_]
        · simp
        · simp only [List.mem_cons]
          rintro (h1 | h1)
          · exact hk h1.symm
          · exact hmem h1

lemma addToGroup_nodup (gs : List (String × List JSRecord)) (k : String) (item : JSRecord)
    (h : (gs.map Prod.fst).Nodup) : ((addToGroup gs k item).map Prod.fst).Nodup := by
  rw [addToGroup_keys]
  by_cases hmem : k ∈ gs.map Prod.fst
  · rw [if_pos hmem]
    exact h
  · rw [if_neg hmem]
    simp [List.nodup_append, h, hmem]

lemma groupDataBy_fold_nodup (data : List JSRecord) (groupBy : String) :
    ∀ acc : List (String × List JSRecord), (acc.map Prod.fst).Nodup →
      ((data.foldl (fun acc item =>
        if jsTruthy (getF item groupBy) then
          addToGroup acc (propKeyO (getF item groupBy)) item
        else acc) acc).map Prod.fst).Nodup := by
  induction data with
  | nil => intro acc h; simpa using h
  | cons r rest ih =>
    intro acc h
    simp only [List.foldl_cons]
    by_cases ht : jsTruthy (getF r groupBy) = true
    · rw [if_pos ht]
      exact ih _ (addToGroup_nodup _ _ _ h)
    · rw [if_neg ht]
      exact ih _ h

/-- Object keys of `groupDataBy` are unique. -/
lemma groupDataBy_nodup (data : List JSRecord) (groupBy : String) :
    ((groupDataBy data groupBy).map Prod.fst).Nodup := by
  unfold groupDataBy
  by_cases he : data.isEmpty
  · simp [he]
  · rw [if_neg he]
    exact groupDataBy_fold_nodup data groupBy [] (by simp)

/-- In a list of pairs with unique keys, the value of a key is unique. -/
lemma assoc_mem_unique {α : Type} {l : List (String × α)} {k : String} {a b : α}
    (ha : (k, a) ∈ l) (hb : (k, b) ∈ l) (hn : (l.map Prod.fst).Nodup) : a = b := by
  induction l with
  | nil => simp at ha
  | cons p rest ih =>
    simp only [List.map_cons, List.nodup_cons] at hn
    rcases List.mem_cons.mp ha with h1 | h1 <;> rcases List.mem_cons.mp hb with h2 | h2
    · have h3 := h1.trans h2.symm
      injection h3 with _ hab
    · exfalso
      have hk : p.1 = k := by rw [← h1]
      apply hn.1
      rw [hk]
      simpa using List.mem_map_of_mem Prod.fst h2
    · exfalso
      have hk : p.1 = k := by rw [← h2]
      apply hn.1
      rw [hk]
      simpa using List.mem_map_of_mem Prod.fst h1
    · exact ih h1 h2 hn.2

lemma growingEntry_char (pid : String) (pitems : List JSRecord)
    (h1 : ¬ pitems.length < 5) (h2 : ¬ (productMonthly pitems).length < 3) :
    growingEntry pid pitems =
      if JQ.blt JQ.zero (lsSlope ((productMonthly pitems).map Bucket.sum)) &&
          (growthRateOf (productMonthly pitems)).gtB ⟨10, 1⟩ then
        some ⟨pid, firstName pitems, growthRateOf (productMonthly pitems),
          productMonthly pitems⟩
      else none := by
  rw [growingEntry, if_neg h1]
  dsimp only
  rw [if_neg h2]

lemma growingEntry_skip (pid : String) (pitems : List JSRecord)
    (h : pitems.length < 5 ∨ (productMonthly pitems).length < 3) :
    growingEntry pid pitems = none := by
  rcases h with h | h
  · rw [growingEntry, if_pos h]
  · by_cases h1 : pitems.length < 5
    · rw [growingEntry, if_pos h1]
    · rw [growingEntry, if_neg h1]
      dsimp only
      rw [if_pos h]

lemma growingEntry_id {pid : String} {pitems : List JSRecord} {e : TrendProduct}
    (h : growingEntry pid pitems = some e) : e.id = pid := by
  by_cases h1 : pitems.length < 5
  · rw [growingEntry_skip pid pitems (Or.inl h1)] at h
    exact absurd h (by simp)
  · by_cases h2 : (productMonthly pitems).length < 3
    · rw [growingEntry_skip pid pitems (Or.inr h2)] at h
      exact absurd h (by simp)
    · rw [growingEntry_char pid pitems h1 h2] at h
      by_cases h3 : (JQ.blt JQ.zero (lsSlope ((productMonthly pitems).map Bucket.sum)) &&
          (growthRateOf (productMonthly pitems)).gtB ⟨10, 1⟩) = true
      · rw [if_pos h3] at h
        injection h with h
        rw [← h]
      · rw [if_neg h3] at h
        exact absurd h (by simp)

lemma decliningEntry_char (pid : String) (pitems : List JSRecord)
    (h1 : ¬ pitems.length < 5) (h2 : ¬ (productMonthly pitems).length < 3) :
    decliningEntry pid pitems =
      if JQ.blt (lsSlope ((productMonthly pitems).map Bucket.sum)) JQ.zero &&
          (growthRateOf (productMonthly pitems)).ltB ⟨-10, 1⟩ then
        some ⟨pid, firstName pitems, growthRateOf (productMonthly pitems),
          productMonthly pitems⟩
      else none := by
  rw [decliningEntry, if_neg h1]
  dsimp only
  rw [if_neg h2]

lemma decliningEntry_skip (pid : String) (pitems : List JSRecord)
    (h : pitems.length < 5 ∨ (productMonthly pitems).length < 3) :
    decliningEntry pid pitems = none := by
  rcases h with h | h
  · rw [decliningEntry, if_pos h]
  · by_cases h1 : pitems.length < 5
    · rw [decliningEntry, if_pos h1]
    · rw [decliningEntry, if_neg h1]
      dsimp only
      rw [if_pos h]

lemma decliningEntry_id {pid : String} {pitems : List JSRecord} {e : TrendProduct}
    (h : decliningEntry pid pitems = some e) : e.id = pid := by
  by_cases h1 : pitems.length < 5
  · rw [decliningEntry_skip pid pitems (Or.inl h1)] at h
    exact absurd h (by simp)
  · by_cases h2 : (productMonthly pitems).length < 3
    · rw [decliningEntry_skip pid pitems (Or.inr h2)] at h
      exact absurd h (by simp)
    · rw [decliningEntry_char pid pitems h1 h2] at h
      by_cases h3 : (JQ.blt (lsSlope ((productMonthly pitems).map Bucket.sum)) JQ.zero &&
          (growthRateOf (productMonthly pitems)).ltB ⟨-10, 1⟩) = true
      · rw [if_pos h3] at h
        injection h with h
        rw [← h]
      · rw [if_neg h3] at h
        exact absurd h (by simp)

/-- When the first bucket sum is nonzero, the code's growth-rate comparison
is exactly the claim's formula. -/
lemma growthRate_gtB_iff (ms : List Bucket)
    (hfz : JQ.beq (firstSum ms) JQ.zero = false) :
    ((growthRateOf ms).gtB ⟨10, 1⟩ = JQ.blt ⟨10, 1⟩ (claimGrowthRate ms)) ∧
      ((growthRateOf ms).ltB ⟨-10, 1⟩ = JQ.blt (claimGrowthRate ms) ⟨-10, 1⟩) := by
  unfold growthRateOf jsDiv claimGrowthRate
  rw [hfz]
  simp only [Bool.false_eq_true, if_false]
  exact ⟨rfl, rfl⟩

lemma mem_growing_analyzed {items orders : List JSRecord} {t : Trends}
    (ht : analyzeProductTrends items orders = .ok t) :
    t.growingProducts = ((growingFiltered items).insertionSort growDesc).take 5 ∧
      t.decliningProducts = ((decliningFiltered items).insertionSort growAsc).take 5 := by
  unfold analyzeProductTrends at ht
  by_cases he : ((normalizeData items).isEmpty || (normalizeData orders).isEmpty) = true
  · rw [if_pos he] at ht
    exact absurd ht (by simp)
  · rw [if_neg he] at ht
    injection ht with ht
    rw [← ht]
    exact ⟨rfl, rfl⟩

/-- C1 (amended): for every analyzed product group with at least 5 records,
at least 3 monthly buckets and a nonzero first-bucket sum, membership in the
growing (resp. declining) result list always implies `slope > 0 ∧
growth rate > 10` (resp. `slope < 0 ∧ growth rate < −10`); the converse —
the condition implies membership — holds *provided at most five products
qualify for that list*: each list is sorted by growth rate and capped at
its top 5, so with six or more qualifiers the lowest-rated ones are dropped
(see the counterexample).  Products with fewer than 5 records or fewer than
3 buckets appear in neither list, unconditionally. -/
theorem C1_amended_classification (items orders : List JSRecord) (t : Trends)
    (ht : analyzeProductTrends items orders = .ok t)
    (pid : String) (pitems : List JSRecord)
    (hmem : (pid, pitems) ∈ groupDataBy (normalizeData items) "item_id") :
    (pitems.length < 5 ∨ (productMonthly pitems).length < 3 →
      (∀ e ∈ t.growingProducts, e.id ≠ pid) ∧
        (∀ e ∈ t.decliningProducts, e.id ≠ pid)) ∧
      (¬ pitems.length < 5 → ¬ (productMonthly pitems).length < 3 →
        JQ.beq (firstSum (productMonthly pitems)) JQ.zero = false →
        (((∃ e ∈ t.growingProducts, e.id = pid) →
            (JQ.lt JQ.zero (lsSlope ((productMonthly pitems).map Bucket.sum)) ∧
              JQ.lt ⟨10, 1⟩ (claimGrowthRate (productMonthly pitems)))) ∧
          ((growingFiltered items).length ≤ 5 →
            (JQ.lt JQ.zero (lsSlope ((productMonthly pitems).map Bucket.sum)) ∧
              JQ.lt ⟨10, 1⟩ (claimGrowthRate (productMonthly pitems))) →
            ∃ e ∈ t.growingProducts, e.id = pid)) ∧
        (((∃ e ∈ t.decliningProducts, e.id = pid) →
            (JQ.lt (lsSlope ((productMonthly pitems).map Bucket.sum)) JQ.zero ∧
              JQ.lt (claimGrowthRate (productMonthly pitems)) ⟨-10, 1⟩)) ∧
          ((decliningFiltered items).length ≤ 5 →
            (JQ.lt (lsSlope ((productMonthly pitems).map Bucket.sum)) JQ.zero ∧
              JQ.lt (claimGrowthRate (productMonthly pitems)) ⟨-10, 1⟩) →
            ∃ e ∈ t.decliningProducts, e.id = pid))) := by
  obtain ⟨hG, hD⟩ := mem_growing_analyzed ht
  have hnodup := groupDataBy_nodup (normalizeData items) "item_id"
  have hback : ∀ e ∈ t.growingProducts, e.id = pid →
      growingEntry pid pitems = some e := by
    intro e he hid
    rw [hG] at he
    have h1 : e ∈ (growingFiltered items).insertionSort growDesc :=
      List.mem_of_mem_take he
    have h2 : e ∈ growingFiltered items := (List.mem_insertionSort growDesc).mp h1
    obtain ⟨⟨q1, q2⟩, hq, hqe⟩ := List.mem_filterMap.mp h2
    have hqid : e.id = q1 := growingEntry_id hqe
    have hq1 : q1 = pid := by rw [← hqid, hid]
    subst hq1
    have hq2 : q2 = pitems := assoc_mem_unique hq hmem hnodup
    subst hq2
    exact hqe
  have hbackD : ∀ e ∈ t.decliningProducts, e.id = pid →
      decliningEntry pid pitems = some e := by
    intro e he hid
    rw [hD] at he
    have h1 : e ∈ (decliningFiltered items).insertionSort growAsc :=
      List.mem_of_mem_take he
    have h2 : e ∈ decliningFiltered items := (List.mem_insertionSort growAsc).mp h1
    obtain ⟨⟨q1, q2⟩, hq, hqe⟩ := List.mem_filterMap.mp h2
    have hqid : e.id = q1 := decliningEntry_id hqe
    have hq1 : q1 = pid := by rw [← hqid, hid]
    subst hq1
    have hq2 : q2 = pitems := assoc_mem_unique hq hmem hnodup
    subst hq2
    exact hqe
  constructor
  · intro hskip
    constructor
    · intro e he hid
      have := hback e he hid
      rw [growingEntry_skip pid pitems hskip] at this
      exact absurd this (by simp)
    · intro e he hid
      have := hbackD e he hid
      rw [decliningEntry_skip pid pitems hskip] at this
      exact absurd this (by simp)
  · intro h5 h3 hfz
    obtain ⟨hgt, hlt⟩ := growthRate_gtB_iff (productMonthly pitems) hfz
    refine ⟨⟨?_, ?_⟩, ?_, ?_⟩
    · rintro ⟨e, he, hid⟩
      have := hback e he hid
      rw [growingEntry_char pid pitems h5 h3] at this
      by_cases hc : (JQ.blt JQ.zero (lsSlope ((productMonthly pitems).map Bucket.sum)) &&
          (growthRateOf (productMonthly pitems)).gtB ⟨10, 1⟩) = true
      · simp only [Bool.and_eq_true, hgt, JQ.blt, decide_eq_true_eq] at hc
        exact hc
      · rw [if_neg hc] at this
        exact absurd this (by simp)
    · intro hcap hcond
      have hc : (JQ.blt JQ.zero (lsSlope ((productMonthly pitems).map Bucket.sum)) &&
          (growthRateOf (productMonthly pitems)).gtB ⟨10, 1⟩) = true := by
        simp only [Bool.and_eq_true, hgt, JQ.blt, decide_eq_true_eq]
        exact hcond
      have hsome : growingEntry pid pitems =
          some ⟨pid, firstName pitems, growthRateOf (productMonthly pitems),
            productMonthly pitems⟩ := by
        rw [growingEntry_char pid pitems h5 h3, if_pos hc]
      have hmem2 : (⟨pid, firstName pitems, growthRateOf (productMonthly pitems),
          productMonthly pitems⟩ : TrendProduct) ∈ growingFiltered items :=
        List.mem_filterMap.mpr ⟨(pid, pitems), hmem, hsome⟩
      refine ⟨⟨pid, firstName pitems, growthRateOf (productMonthly pitems),
        productMonthly pitems⟩, ?_, rfl⟩
      rw [hG]
      have hlen : ((growingFiltered items).insertionSort growDesc).length ≤ 5 := by
        rw [List.length_insertionSort]
        exact hcap
      rw [List.take_of_length_le hlen]
      exact (List.mem_insertionSort growDesc).mpr hmem2
    · rintro ⟨e, he, hid⟩
      have := hbackD e he hid
      rw [decliningEntry_char pid pitems h5 h3] at this
      by_cases hc : (JQ.blt (lsSlope ((productMonthly pitems).map Bucket.sum)) JQ.zero &&
          (growthRateOf (productMonthly pitems)).ltB ⟨-10, 1⟩) = true
      · simp only [Bool.and_eq_true, hlt, JQ.blt, decide_eq_true_eq] at hc
        exact hc
      · rw [if_neg hc] at this
        exact absurd this (by simp)
    · intro hcap hcond
      have hc : (JQ.blt (lsSlope ((productMonthly pitems).map Bucket.sum)) JQ.zero &&
          (growthRateOf (productMonthly pitems)).ltB ⟨-10, 1⟩) = true := by
        simp only [Bool.and_eq_true, hlt, JQ.blt, decide_eq_true_eq]
        exact hcond
      have hsome : decliningEntry pid pitems =
          some ⟨pid, firstName pitems, growthRateOf (productMonthly pitems),
            productMonthly pitems⟩ := by
        rw [decliningEntry_char pid pitems h5 h3, if_pos hc]
      have hmem2 : (⟨pid, firstName pitems, growthRateOf (productMonthly pitems),
          productMonthly pitems⟩ : TrendProduct) ∈ decliningFiltered items :=
        List.mem_filterMap.mpr ⟨(pid, pitems), hmem, hsome⟩
      refine ⟨⟨pid, firstName pitems, growthRateOf (productMonthly pitems),
        productMonthly pitems⟩, ?_, rfl⟩
      rw [hD]
      have hlen : ((decliningFiltered items).insertionSort growAsc).length ≤ 5 := by
        rw [List.length_insertionSort]
        exact hcap
      rw [List.take_of_length_le hlen]
      exact (List.mem_insertionSort growAsc).mpr hmem2

theorem C1_amended_classification_witness :
    ∃ e ∈ c1WitnessTrends.growingProducts, e.id = "pA" :=
  ((C1_amended_classification c1WitnessItems c1CexOrders c1WitnessTrends rfl
        "pA" c1WitnessPA (by decide)).2 (by decide) (by decide) (by decide)).1.2
    (by decide) ⟨by decide, by decide⟩

/-- C6 counterexample: `A` is co-purchased with exactly one other distinct
product (`B`) in every one of its orders, and the number of shared orders is
1 — but the co-occurrence counter counts item-record pairs, so `B`'s count
is 2. -/
theorem C6_cex_per_record_counting :
    (match assocFind (createProductFeatures c6CexItems []) "A" with
      | some f => f.common_purchases.map (fun c => (c.id, c.count))
      | none => []) = [("B", 2)] ∧
      (dedupSVZ (((normalizeData c6CexItems).filter
        (fun r => propKeyO (getF r "item_id") == "A")).map
          (fun r => getF r "order_id"))).length = 1 := by
  exact ⟨by decide, by decide⟩

lemma assocFind_assocUpdate_self {α : Type} (m : List (String × α)) (k : String)
    (f : α → α) (init : α) :
    assocFind (assocUpdate m k f init) k = some (f ((assocFind m k).getD init)) := by
  induction m with
  | nil => simp [assocUpdate, assocFind]
  | cons p rest ih =>
    obtain ⟨k', a⟩ := p
    by_cases hk : k' = k
    · subst hk
      rw [assocUpdate, if_pos rfl]
      simp [assocFind]
    · rw [assocUpdate, if_neg hk]
      have hb : (k' == k) = false := by simpa using hk
      unfold assocFind at ih ⊢
      simp only [List.find?_cons, hb]
      exact ih

lemma assocFind_assocUpdate_ne {α : Type} (m : List (String × α)) (k k' : String)
    (f : α → α) (init : α) (hk : k' ≠ k) :
    assocFind (assocUpdate m k f init) k' = assocFind m k' := by
  have hb : (k == k') = false := by simpa using fun h => hk h.symm
  induction m with
  | nil => simp [assocUpdate, assocFind, hb]
  | cons p rest ih =>
    obtain ⟨k1, a⟩ := p
    by_cases h1 : k1 = k
    · subst h1
      rw [assocUpdate, if_pos rfl]
      unfold assocFind
      simp only [List.find?_cons, hb]
    · rw [assocUpdate, if_neg h1]
      unfold assocFind at ih ⊢
      simp only [List.find?_cons]
      cases hbeq : (k1 == k') with
      | true => simp
      | false =>
        simp only [hbeq]
        exact ih

lemma coCounts_fold_proj (processed : List JSRecord) (A : String) (rs : List JSRecord) :
    ∀ cm, assocFind (rs.foldl (secondPassItem processed) cm) A =
      coFor processed A rs (assocFind cm A) := by
  induction rs with
  | nil => intro cm; rfl
  | cons r rest ih =>
    intro cm
    simp only [List.foldl_cons, coFor]
    by_cases hA : propKeyO (getF r "item_id") = A
    · rw [if_pos hA]
      rw [ih]
      congr 1
      unfold secondPassItem
      rw [hA]
      rw [assocFind_assocUpdate_self]
      rfl
    · rw [if_neg hA]
      rw [ih]
      congr 1
      unfold secondPassItem
      exact assocFind_assocUpdate_ne _ _ _ _ _ (fun h => hA h.symm)

lemma coFor_empty (processed : List JSRecord) (A : String) (rs : List JSRecord)
    (h : ∀ r ∈ rs, propKeyO (getF r "item_id") = A → orderProducts processed r = []) :
    ∀ cur, cur = none ∨ cur = some [] →
      coFor processed A rs cur = none ∨ coFor processed A rs cur = some [] := by
  induction rs with
  | nil => intro cur hc; exact hc
  | cons r rest ih =>
    intro cur hc
    unfold coFor
    by_cases hA : propKeyO (getF r "item_id") = A
    · rw [if_pos hA]
      rw [h r (List.mem_cons_self r rest) hA]
      apply ih (fun s hs => h s (List.mem_cons_of_mem r hs))
      right
      rcases hc with hc | hc <;> rw [hc] <;> rfl
    · rw [if_neg hA]
      exact ih (fun s hs => h s (List.mem_cons_of_mem r hs)) cur hc

lemma coFor_single (processed : List JSRecord) (A B : String) (rs : List JSRecord)
    (h : ∀ r ∈ rs, propKeyO (getF r "item_id") = A →
      ∃ v, orderProducts processed r = [v] ∧ propKeyO v = B) :
    ∀ m, coFor processed A rs (some [(B, m)]) =
        some [(B, m + (rs.filter (fun r => propKeyO (getF r "item_id") == A)).length)] ∧
      (1 ≤ (rs.filter (fun r => propKeyO (getF r "item_id") == A)).length →
        coFor processed A rs none =
          some [(B, (rs.filter (fun r => propKeyO (getF r "item_id") == A)).length)]) := by
  induction rs with
  | nil =>
    intro m
    constructor
    · simp [coFor]
    · intro h1
      exact absurd h1 (by simp)
  | cons r rest ih =>
    intro m
    have hrest : ∀ s ∈ rest, propKeyO (getF s "item_id") = A →
        ∃ v, orderProducts processed s = [v] ∧ propKeyO v = B :=
      fun s hs => h s (List.mem_cons_of_mem r hs)
    by_cases hA : propKeyO (getF r "item_id") = A
    · obtain ⟨v, hv, hvB⟩ := h r (List.mem_cons_self r rest) hA
      have hfilter : (r :: rest).filter (fun s => propKeyO (getF s "item_id") == A) =
          r :: rest.filter (fun s => propKeyO (getF s "item_id") == A) := by
        rw [List.filter_cons_of_pos (by simpa using hA)]
      constructor
      · unfold coFor
        rw [if_pos hA, hv]
        simp only [List.foldl_cons, List.foldl_nil, Option.getD_some]
        rw [hvB]
        have hstep : coIncr [(B, m)] B = [(B, m + 1)] := by
          unfold coIncr
          rw [if_pos rfl]
        rw [hstep]
        rw [(ih hrest (m + 1)).1]
        rw [hfilter]
        simp only [List.length_cons]
        have he : m + 1 + (rest.filter
            (fun s => propKeyO (getF s "item_id") == A)).length =
            m + ((rest.filter (fun s => propKeyO (getF s "item_id") == A)).length + 1) := by
          omega
        rw [he]
      · intro _
        unfold coFor
        rw [if_pos hA, hv]
        simp only [List.foldl_cons, List.foldl_nil, Option.getD_none]
        rw [hvB]
        have hstep : coIncr [] B = [(B, 1)] := rfl
        rw [hstep]
        rw [(ih hrest 1).1]
        rw [hfilter]
        simp only [List.length_cons]
        have he : 1 + (rest.filter
            (fun s => propKeyO (getF s "item_id") == A)).length =
            (rest.filter (fun s => propKeyO (getF s "item_id") == A)).length + 1 := by
          omega
        rw [he]
    · have hfilter : (r :: rest).filter (fun s => propKeyO (getF s "item_id") == A) =
          rest.filter (fun s => propKeyO (getF s "item_id") == A) := by
        rw [List.filter_cons_of_neg (by simpa using hA)]
      constructor
      · unfold coFor
        rw [if_neg hA, hfilter]
        exact (ih hrest m).1
      · intro h1
        unfold coFor
        rw [if_neg hA]
        rw [hfilter] at h1 ⊢
        exact (ih hrest m).2 h1

lemma assocFind_map_snd {α β : Type} (l : List (String × α)) (g : String → α → β)
    (k : String) :
    assocFind (l.map (fun p => (p.1, g p.1 p.2))) k = (assocFind l k).map (g k) := by
  induction l with
  | nil => rfl
  | cons p rest ih =>
    obtain ⟨k1, a⟩ := p
    unfold assocFind at ih ⊢
    simp only [List.map_cons, List.find?_cons]
    cases hbeq : ((k1, a).1 == k) with
    | true =>
      have hk : k1 = k := by simpa using hbeq
      subst hk
      simp
    | false =>
      have h2 : ((k1, g k1 a).1 == k) = false := hbeq
      simp only [h2, hbeq]
      exact ih

lemma dedupSVZ_of_pairwise (l : List (Option JSValue))
    (hpair : List.Pairwise (fun v w => jsSameValueZero v w = false) l) :
    ∀ acc, (∀ v ∈ l, acc.any (fun w => jsSameValueZero w v) = false) →
      l.foldl setAdd acc = acc ++ l := by
  induction l with
  | nil => intro acc _; simp
  | cons v rest ih =>
    intro acc hacc
    simp only [List.foldl_cons]
    have hv : setAdd acc v = acc ++ [v] := by
      unfold setAdd
      rw [if_neg ?_]
      rw [hacc v (List.mem_cons_self v rest)]
      simp
    rw [hv]
    rw [ih hpair.of_cons (acc ++ [v]) ?_]
    · simp
    · intro w hw
      rw [List.any_append]
      have h1 : acc.any (fun x => jsSameValueZero x w) = false :=
        hacc w (List.mem_cons_of_mem v hw)
      have h2 : jsSameValueZero v w = false := (List.pairwise_cons.mp hpair).1 w hw
      simp [h1, h2]

lemma map_propKey_singleton {l : List (Option JSValue)} {B : String}
    (h : l.map propKeyO = [B]) : ∃ v, l = [v] ∧ propKeyO v = B := by
  cases l with
  | nil => simp at h
  | cons v t =>
    cases t with
    | nil =>
      refine ⟨v, rfl, ?_⟩
      simpa using h
    | cons w t2 => simp at h

/-- C6 (amended): in the feature table, (1) a product that appears alone in
every one of its orders has an empty `common_purchases` list; (2) a product
whose every record is co-purchased with exactly one other record, always of
the same other product `B`, has `B` as its sole entry, with count equal to
the number of its *item records* — which equals the number of shared orders
exactly when the product has at most one record per order, since (3) then
its records' order ids are pairwise distinct and their deduplicated count
equals the record count.  (With duplicate records per order the count
exceeds the shared-order count; see the counterexample.) -/
theorem C6_amended_co_purchases (orderItems orders : List JSRecord) (A B : String)
    (f : ProductFeature)
    (hf : assocFind (createProductFeatures orderItems orders) A = some f) :
    ((∀ r ∈ normalizeData orderItems, propKeyO (getF r "item_id") = A →
        orderProducts (normalizeData orderItems) r = []) →
      f.common_purchases = []) ∧
      ((∀ r ∈ normalizeData orderItems, propKeyO (getF r "item_id") = A →
          (orderProducts (normalizeData orderItems) r).map propKeyO = [B]) →
        1 ≤ ((normalizeData orderItems).filter
          (fun r => propKeyO (getF r "item_id") == A)).length →
        f.common_purchases.map (fun c => (c.id, c.count)) =
          [(B, ((normalizeData orderItems).filter
            (fun r => propKeyO (getF r "item_id") == A)).length)]) ∧
      (List.Pairwise (fun v w => jsSameValueZero v w = false)
          (((normalizeData orderItems).filter
            (fun r => propKeyO (getF r "item_id") == A)).map (fun r => getF r "order_id")) →
        (dedupSVZ (((normalizeData orderItems).filter
          (fun r => propKeyO (getF r "item_id") == A)).map
            (fun r => getF r "order_id"))).length =
          ((normalizeData orderItems).filter
            (fun r => propKeyO (getF r "item_id") == A)).length) := by
  have hmap : createProductFeatures orderItems orders =
      ((normalizeData orderItems).foldl firstPassItem []).map
        (fun p => (p.1, finalizeFeature ((normalizeData orderItems).foldl firstPassItem [])
          (coCounts (normalizeData orderItems)) p.1 p.2)) := rfl
  rw [hmap, assocFind_map_snd] at hf
  obtain ⟨accA, hacc, hfeq⟩ := Option.map_eq_some'.mp hf
  have hco : f.common_purchases =
      (((((assocFind (coCounts (normalizeData orderItems)) A).getD []).insertionSort
        coDesc).take 5).map (fun x =>
          ⟨x.1, resolveName ((normalizeData orderItems).foldl firstPassItem []) x.1, x.2⟩)) := by
    rw [← hfeq]
    rfl
  have hproj : assocFind (coCounts (normalizeData orderItems)) A =
      coFor (normalizeData orderItems) A (normalizeData orderItems) none := by
    unfold coCounts
    rw [coCounts_fold_proj]
    rfl
  refine ⟨?_, ?_, ?_⟩
  · intro halone
    rcases coFor_empty (normalizeData orderItems) A (normalizeData orderItems)
        halone none (Or.inl rfl) with he | he <;>
      rw [hco, hproj, he] <;> rfl
  · intro h1 hn1
    have h1' : ∀ r ∈ normalizeData orderItems, propKeyO (getF r "item_id") = A →
        ∃ v, orderProducts (normalizeData orderItems) r = [v] ∧ propKeyO v = B :=
      fun r hr hA => map_propKey_singleton (h1 r hr hA)
    have hc := (coFor_single (normalizeData orderItems) A B
      (normalizeData orderItems) h1' 0).2 hn1
    rw [hco, hproj, hc]
    rfl
  · intro hpw
    unfold dedupSVZ
    rw [dedupSVZ_of_pairwise _ hpw [] (by simp)]
    simp

theorem C6_amended_co_purchases_witness :
    c6WitnessFeatA.common_purchases.map (fun c => (c.id, c.count)) = [("B", 1)] := by
  have h := (C6_amended_co_purchases c6WitnessItems [] "A" "B" c6WitnessFeatA rfl).2.1
    (by decide) (by decide)
  rw [h]
  decide

/-- `SameValueZero` against a string on the right holds exactly for the same
string value. -/
theorem svz_str_right (w : Option JSValue) (s : String) :
    jsSameValueZero w (some (JSValue.str s)) = true ↔ w = some (JSValue.str s) := by
  cases w with
  | none => simp [jsSameValueZero]
  | some v => cases v <;> simp [jsSameValueZero]

/-- `SameValueZero` against a string on the left holds exactly for the same
string value. -/
theorem svz_str_left (w : Option JSValue) (s : String) :
    jsSameValueZero (some (JSValue.str s)) w = true ↔ w = some (JSValue.str s) := by
  cases w with
  | none => simp [jsSameValueZero]
  | some v =>
    cases v with
    | str a =>
      simp only [jsSameValueZero, beq_iff_eq, Option.some.injEq, JSValue.str.injEq]
      exact eq_comm
    | num q => simp [jsSameValueZero]
    | nan => simp [jsSameValueZero]
    | date d => simp [jsSameValueZero]
    | invalidDate => simp [jsSameValueZero]
    | nullV => simp [jsSameValueZero]

/-- Every element of the dedup fold's output is in the accumulator or in the
input list. -/
theorem mem_dedupFold (xs : List Recommendation) :
    ∀ acc r, r ∈ xs.foldl
        (fun acc r => if acc.any (fun x => jsSameValueZero x.id r.id) then acc
          else acc ++ [r]) acc →
      r ∈ acc ∨ r ∈ xs := by
  induction xs with
  | nil => intro acc r h; exact Or.inl h
  | cons x rest ih =>
    intro acc r h
    simp only [List.foldl_cons] at h
    rcases ih _ r h with hacc | hrest
    · by_cases hc : acc.any (fun y => jsSameValueZero y.id x.id) = true
      · rw [if_pos hc] at hacc
        exact Or.inl hacc
      · rw [if_neg hc] at hacc
        rcases List.mem_append.mp hacc with h1 | h2
        · exact Or.inl h1
        · exact Or.inr (List.mem_cons.mpr (Or.inl (List.mem_singleton.mp h2)))
    · exact Or.inr (List.mem_cons_of_mem _ hrest)

/-- Any output element of the dedup fold that is not from the accumulator
came from the input and has no `SameValueZero` id match in the accumulator
(the `seen` set only grows). -/
theorem dedupFold_added (xs : List Recommendation) :
    ∀ acc r, r ∈ xs.foldl
        (fun acc r => if acc.any (fun x => jsSameValueZero x.id r.id) then acc
          else acc ++ [r]) acc →
      r ∈ acc ∨ (r ∈ xs ∧ ∀ a ∈ acc, jsSameValueZero a.id r.id = false) := by
  induction xs with
  | nil => intro acc r h; exact Or.inl h
  | cons x rest ih =>
    intro acc r h
    simp only [List.foldl_cons] at h
    by_cases hc : acc.any (fun y => jsSameValueZero y.id x.id) = true
    · rw [if_pos hc] at h
      rcases ih acc r h with h1 | ⟨h2, h3⟩
      · exact Or.inl h1
      · exact Or.inr ⟨List.mem_cons_of_mem _ h2, h3⟩
    · rw [if_neg hc] at h
      have hcf : ∀ a ∈ acc, jsSameValueZero a.id x.id = false := by
        intro a ha
        cases hb : jsSameValueZero a.id x.id with
        | false => rfl
        | true => exact absurd (List.any_eq_true.mpr ⟨a, ha, hb⟩) hc
      rcases ih (acc ++ [x]) r h with h1 | ⟨h2, h3⟩
      · rcases List.mem_append.mp h1 with ha | hx
        · exact Or.inl ha
        · have hrx : r = x := List.mem_singleton.mp hx
          subst hrx
          exact Or.inr ⟨List.mem_cons_self r rest, hcf⟩
      · exact Or.inr ⟨List.mem_cons_of_mem _ h2, fun a ha =>
          h3 a (List.mem_append.mpr (Or.inl ha))⟩

/-- The dedup fold's output has pairwise non-`SameValueZero`-equal ids. -/
theorem dedupFold_pairwise (xs : List Recommendation) :
    ∀ acc : List Recommendation,
      acc.Pairwise (fun a b => jsSameValueZero a.id b.id = false) →
      (xs.foldl (fun acc r => if acc.any (fun x => jsSameValueZero x.id r.id) then acc
          else acc ++ [r]) acc).Pairwise
        (fun a b => jsSameValueZero a.id b.id = false) := by
  induction xs with
  | nil => intro acc h; exact h
  | cons x rest ih =>
    intro acc hacc
    simp only [List.foldl_cons]
    by_cases hc : acc.any (fun y => jsSameValueZero y.id x.id) = true
    · rw [if_pos hc]
      exact ih acc hacc
    · rw [if_neg hc]
      refine ih _ (List.pairwise_append.mpr ⟨hacc, List.pairwise_singleton _ _, ?_⟩)
      intro a ha b hb
      have hbx : b = x := List.mem_singleton.mp hb
      subst hbx
      cases hb2 : jsSameValueZero a.id b.id with
      | false => rfl
      | true => exact absurd (List.any_eq_true.mpr ⟨a, ha, hb2⟩) hc

/-- On a score-descending sorted input whose ids are strings, every element
kept by the dedup fold has maximal score among the same-id occurrences: the
first occurrence (the kept one) is the highest-scoring. -/
theorem dedupFold_max (xs : List Recommendation) :
    ∀ acc, (∀ a ∈ acc, ∀ s ∈ xs, s.score ≤ a.score) →
      List.Sorted recScoreDesc xs →
      (∀ x ∈ xs, ∃ sid, x.id = some (JSValue.str sid)) →
      ∀ r ∈ xs.foldl (fun acc r => if acc.any (fun x => jsSameValueZero x.id r.id) then acc
          else acc ++ [r]) acc,
        ∀ s ∈ xs, jsSameValueZero s.id r.id = true → s.score ≤ r.score := by
  induction xs with
  | nil =>
    intro acc _ _ _ r _ s hs _
    exact absurd hs (List.not_mem_nil s)
  | cons x rest ih =>
    intro acc hge hsort hstr r hr s hs hsvz
    have hsort' : List.Sorted recScoreDesc rest := hsort.of_cons
    have hx_ge : ∀ t ∈ rest, t.score ≤ x.score := fun t ht =>
      List.rel_of_sorted_cons hsort t ht
    have hstr' : ∀ y ∈ rest, ∃ sid, y.id = some (JSValue.str sid) :=
      fun y hy => hstr y (List.mem_cons_of_mem _ hy)
    simp only [List.foldl_cons] at hr
    by_cases hc : acc.any (fun y => jsSameValueZero y.id x.id) = true
    · rw [if_pos hc] at hr
      have hge' : ∀ a ∈ acc, ∀ t ∈ rest, t.score ≤ a.score :=
        fun a ha t ht => hge a ha t (List.mem_cons_of_mem _ ht)
      rcases List.mem_cons.mp hs with hsx | hs'
      · rcases dedupFold_added rest acc r hr with hracc | ⟨hrrest, hnomatch⟩
        · exact hge r hracc s hs
        · simp only [List.any_eq_true] at hc
          rcases hc with ⟨a, ha, hax⟩
          obtain ⟨sx, hxid⟩ := hstr x (List.mem_cons_self x rest)
          rw [hxid] at hax
          have haid : a.id = some (JSValue.str sx) := (svz_str_right _ _).mp hax
          rw [hsx, hxid] at hsvz
          have hrid : r.id = some (JSValue.str sx) := (svz_str_left _ _).mp hsvz
          have hno := hnomatch a ha
          rw [haid, hrid] at hno
          simp [jsSameValueZero] at hno
      · exact ih acc hge' hsort' hstr' r hr s hs' hsvz
    · rw [if_neg hc] at hr
      have hge' : ∀ a ∈ acc ++ [x], ∀ t ∈ rest, t.score ≤ a.score := by
        intro a ha t ht
        rcases List.mem_append.mp ha with h1 | h2
        · exact hge a h1 t (List.mem_cons_of_mem _ ht)
        · have hax : a = x := List.mem_singleton.mp h2
          rw [hax]
          exact hx_ge t ht
      rcases List.mem_cons.mp hs with hsx | hs'
      · rcases dedupFold_added rest (acc ++ [x]) r hr with hracc | ⟨hrrest, hnomatch⟩
        · rcases List.mem_append.mp hracc with h1 | h2
          · exact hge r h1 s hs
          · have hrx : r = x := List.mem_singleton.mp h2
            have hsr : s.score = r.score := by rw [hsx, hrx]
            exact hsr.le
        · have hno := hnomatch x (List.mem_append.mpr (Or.inr (List.mem_singleton_self x)))
          rw [hsx] at hsvz
          rw [hno] at hsvz
          exact Bool.noConfusion hsvz
      · exact ih (acc ++ [x]) hge' hsort' hstr' r hr s hs' hsvz

/-- Every raw personalized recommendation's id is the (string) key of a
co-purchase entry. -/
theorem rawRecommendations_id_str (pf : List (String × ProductFeature))
    (ups : List (Option JSValue)) :
    ∀ r ∈ rawRecommendations pf ups, ∃ sid, r.id = some (JSValue.str sid) := by
  intro r hr
  unfold rawRecommendations at hr
  simp only [List.mem_flatMap] at hr
  rcases hr with ⟨pid, _, hr⟩
  cases hfind : assocFind pf (propKeyO pid) with
  | none =>
    rw [hfind] at hr
    exact absurd hr (List.not_mem_nil r)
  | some f =>
    rw [hfind] at hr
    simp only [List.mem_filterMap] at hr
    rcases hr with ⟨rp, _, hrp⟩
    split at hrp
    · exact Option.noConfusion hrp
    · have h2 := Option.some.inj hrp
      exact ⟨rp.id, by rw [← h2]⟩

/-- Every raw personalized recommendation fails the `userProducts.has`
membership test: products already purchased are filtered out at push time. -/
theorem rawRecommendations_not_purchased (pf : List (String × ProductFeature))
    (ups : List (Option JSValue)) :
    ∀ r ∈ rawRecommendations pf ups,
      ups.any (fun w => jsSameValueZero w r.id) = false := by
  intro r hr
  unfold rawRecommendations at hr
  simp only [List.mem_flatMap] at hr
  rcases hr with ⟨pid, _, hr⟩
  cases hfind : assocFind pf (propKeyO pid) with
  | none =>
    rw [hfind] at hr
    exact absurd hr (List.not_mem_nil r)
  | some f =>
    rw [hfind] at hr
    simp only [List.mem_filterMap] at hr
    rcases hr with ⟨rp, _, hrp⟩
    by_cases hg : ups.any (fun w => jsSameValueZero w (some (JSValue.str rp.id))) = true
    · rw [if_pos hg] at hrp
      exact Option.noConfusion hrp
    · rw [if_neg hg] at hrp
      have h2 := Option.some.inj hrp
      rw [← h2]
      show ups.any (fun w => jsSameValueZero w (some (JSValue.str rp.id))) = false
      cases hb : ups.any (fun w => jsSameValueZero w (some (JSValue.str rp.id))) with
      | false => rfl
      | true => exact absurd hb hg

/-- C7: in personalized mode (nonempty feature table, truthy user id, at
least one matching order), every returned recommendation's product id fails
the `SameValueZero` membership test against the customer's purchased-product
set, the returned ids are pairwise distinct, each returned recommendation is
a raw related-product occurrence whose score is maximal among the raw
occurrences with the same id (dedup keeps the highest-scoring occurrence),
and at most 5 recommendations are returned. -/
theorem C7_personalized_excludes_purchased_dedup_top5
    (productFeatures : List (String × ProductFeature)) (recentOrders : List RecOrder)
    (userId : Option JSValue) (l : List Recommendation)
    (hpf : productFeatures.isEmpty = false)
    (huid : jsTruthy userId = true)
    (ho : (userOrdersFor recentOrders userId).isEmpty = false)
    (hl : generateRecommendations productFeatures recentOrders userId = RecResult.recs l) :
    (∀ r ∈ l, (userProductsOf (userOrdersFor recentOrders userId)).any
        (fun w => jsSameValueZero w r.id) = false) ∧
    List.Pairwise (fun a b => jsSameValueZero a.id b.id = false) l ∧
    (∀ r ∈ l,
      r ∈ rawRecommendations productFeatures
        (userProductsOf (userOrdersFor recentOrders userId)) ∧
      ∀ s ∈ rawRecommendations productFeatures
          (userProductsOf (userOrdersFor recentOrders userId)),
        jsSameValueZero s.id r.id = true → s.score ≤ r.score) ∧
    l.length ≤ 5 := by
  unfold generateRecommendations at hl
  rw [if_neg (by simp [hpf])] at hl
  rw [if_pos huid] at hl
  dsimp only at hl
  rw [if_neg (by simp [ho])] at hl
  injection hl with hleq
  subst hleq
  set ups := userProductsOf (userOrdersFor recentOrders userId) with hups
  set raw := rawRecommendations productFeatures ups with hraw
  set srt := raw.insertionSort recScoreDesc with hsrt
  have hperm : List.Perm srt raw := List.perm_insertionSort _ _
  have hsorted : List.Sorted recScoreDesc srt := List.sorted_insertionSort _ _
  have hstr : ∀ x ∈ srt, ∃ sid, x.id = some (JSValue.str sid) :=
    fun x hx => rawRecommendations_id_str _ _ x (hperm.mem_iff.mp hx)
  have hmem : ∀ r ∈ (dedupById srt).take 5, r ∈ srt := by
    intro r hr
    have hr' : r ∈ dedupById srt := List.mem_of_mem_take hr
    unfold dedupById at hr'
    rcases mem_dedupFold srt [] r hr' with h0 | h1
    · exact absurd h0 (List.not_mem_nil r)
    · exact h1
  refine ⟨?_, ?_, ?_, ?_⟩
  · intro r hr
    exact rawRecommendations_not_purchased _ _ r (hperm.mem_iff.mp (hmem r hr))
  · have hp : (dedupById srt).Pairwise (fun a b => jsSameValueZero a.id b.id = false) := by
      unfold dedupById
      exact dedupFold_pairwise srt [] List.Pairwise.nil
    exact hp.sublist (List.take_sublist 5 _)
  · intro r hr
    have hrs : r ∈ srt := hmem r hr
    refine ⟨hperm.mem_iff.mp hrs, ?_⟩
    intro s hs hsvz
    have hr' : r ∈ dedupById srt := List.mem_of_mem_take hr
    unfold dedupById at hr'
    exact dedupFold_max srt [] (fun a ha => absurd ha (List.not_mem_nil a))
      hsorted hstr r hr' s (hperm.mem_iff.mpr hs) hsvz
  · exact List.length_take_le 5 _

theorem C7_personalized_excludes_purchased_dedup_top5_witness :
    (∀ r ∈ c7WitnessList,
      (userProductsOf (userOrdersFor c7Orders (some (JSValue.str "u1")))).any
        (fun w => jsSameValueZero w r.id) = false) ∧
    List.Pairwise (fun a b => jsSameValueZero a.id b.id = false) c7WitnessList ∧
    (∀ r ∈ c7WitnessList,
      r ∈ rawRecommendations c7Feats
        (userProductsOf (userOrdersFor c7Orders (some (JSValue.str "u1")))) ∧
      ∀ s ∈ rawRecommendations c7Feats
          (userProductsOf (userOrdersFor c7Orders (some (JSValue.str "u1")))),
        jsSameValueZero s.id r.id = true → s.score ≤ r.score) ∧
    c7WitnessList.length ≤ 5 :=
  C7_personalized_excludes_purchased_dedup_top5 c7Feats c7Orders
    (some (JSValue.str "u1")) c7WitnessList rfl rfl rfl rfl

end GrowcifyML
